import Mathlib

/-!
Verification development for the cigar-autopost-drive-to-wp pipeline.
The Python source is embedded shallowly: spreadsheet cells, sheet rows and
document lines become Lean structures and lists, and each Python function
that the specification claims talk about becomes a computable Lean
definition mirroring the source line by line.  Strings are modelled by
Lean String (a list of characters); Python string methods (strip, split,
upper, lower, replace, in) are re-implemented on character lists with
Python semantics restricted to ASCII whitespace.
-/

namespace Cigar

/-- Whitespace characters recognised by Python str.strip and the regex
class used in the source (ASCII fragment). -/
def pyIsSpace (c : Char) : Bool :=
  c = ' ' || c = '\t' || c = '\n' || c = '\r' || c = '\x0b' || c = '\x0c'

/-- Python lstrip on a character list. -/
def lstripL (l : List Char) : List Char := l.dropWhile pyIsSpace

/-- Python rstrip on a character list. -/
def rstripL (l : List Char) : List Char := (l.reverse.dropWhile pyIsSpace).reverse

/-- Python strip on a character list. -/
def stripL (l : List Char) : List Char := rstripL (lstripL l)

/-- Python strip on strings. -/
def pyStrip (s : String) : String := ⟨stripL s.data⟩

/-- Python str.upper, character by character (ASCII). -/
def upperStr (s : String) : String := ⟨s.data.map Char.toUpper⟩

/-- Python str.lower, character by character (ASCII). -/
def lowerStr (s : String) : String := ⟨s.data.map Char.toLower⟩

/-- Python substring test needle in hay on character lists. -/
def containsL (needle : List Char) : List Char → Bool
  | [] => needle.isEmpty
  | c :: t => needle.isPrefixOf (c :: t) || containsL needle t

/-- Python substring test on strings: containsStr hay needle means needle in hay. -/
def containsStr (hay needle : String) : Bool := containsL needle.data hay.data

/-- Python split(sep, 1) for a single character separator: the pieces before
and after the first occurrence, or none when the separator is absent. -/
def splitFirstChar (c : Char) : List Char → Option (List Char × List Char)
  | [] => none
  | a :: t =>
    if a = c then some ([], t)
    else
      match splitFirstChar c t with
      | some (p, q) => some (a :: p, q)
      | none => none

/-- Python split(marker, 1) for a string marker: the pieces before and after
the first occurrence, or none when the marker does not occur. -/
def splitMarker (needle : List Char) : List Char → Option (List Char × List Char)
  | [] => if needle.isEmpty then some ([], []) else none
  | a :: t =>
    if needle.isPrefixOf (a :: t) then some ([], (a :: t).drop needle.length)
    else
      match splitMarker needle t with
      | some (p, q) => some (a :: p, q)
      | none => none

/-- Python split on a comma, all pieces (str.split with a separator never
returns an empty list). -/
def splitCommaL : List Char → List (List Char)
  | [] => [[]]
  | c :: t =>
    if c = ',' then [] :: splitCommaL t
    else
      match splitCommaL t with
      | h :: r => (c :: h) :: r
      | [] => [[c]]

/-- Comma split followed by stripping every piece, as the source does for
author and category cells. -/
def splitCommaStrip (s : String) : List String :=
  (splitCommaL s.data).map (fun p => ⟨stripL p⟩)

/-- Whitespace split as Python str.split with no argument: maximal runs of
non-whitespace characters, no empty words. -/
def wordsAux : List Char → List Char → List (List Char)
  | [], acc => if acc.isEmpty then [] else [acc.reverse]
  | c :: t, acc =>
    if pyIsSpace c then
      if acc.isEmpty then wordsAux t [] else acc.reverse :: wordsAux t []
    else wordsAux t (c :: acc)

/-- Python str.split() on strings. -/
def pySplitWs (s : String) : List String :=
  (wordsAux s.data []).map (fun w => ⟨w⟩)

/-- Python str.replace(old, new) replacing every occurrence left to right,
written with a skip counter so that the recursion is structural: after a
match the next needle-length-minus-one characters are dropped and the
replacement is emitted, exactly the non-overlapping left-to-right scan of
the Python method. -/
def replGo (needle repl : List Char) : List Char → Nat → List Char
  | [], _ => []
  | _ :: t, Nat.succ k => replGo needle repl t k
  | c :: t, 0 =>
    if needle ≠ [] ∧ needle.isPrefixOf (c :: t) then
      repl ++ replGo needle repl t (needle.length - 1)
    else c :: replGo needle repl t 0

/-- Python str.replace on character lists. -/
def replaceAllL (needle repl : List Char) (l : List Char) : List Char :=
  replGo needle repl l 0

/-- Python str.replace on strings. -/
def replaceAll (s old new : String) : String :=
  ⟨replaceAllL old.data new.data s.data⟩

/-- Python line.endswith of a single character. -/
def endsWithChar (c : Char) (l : List Char) : Bool :=
  match l.getLast? with
  | some a => a = c
  | none => false

/-- Python line.rstrip of a single character class, used for rstrip of a colon. -/
def rstripColonsL (l : List Char) : List Char :=
  (l.reverse.dropWhile (fun c => c = ':')).reverse

/-- Python line.rstrip of a colon on strings. -/
def rstripColons (s : String) : String := ⟨rstripColonsL s.data⟩

/-! ## Cell Link Extractor (google_integration.get_eligible_rows, methods 1 to 3) -/

/-- One element of textFormatRuns: link is some uri when the run format
carries a link. -/
structure TextRun where
  link : Option String := none
deriving DecidableEq

/-- A spreadsheet cell as delivered by the sheet reader: the keys the
source reads, each optional because the source tests key presence. -/
structure Cell where
  formattedValue : Option String := none
  hyperlink : Option String := none
  textFormatRuns : Option (List TextRun) := none
deriving DecidableEq

/-- Python truthiness of the story_url variable: None and the empty string
are both falsy. -/
def falsyOpt : Option String → Bool
  | none => true
  | some s => s.data.isEmpty

/-- Longest whitespace-free run at the head of a list, the regex piece
matching one or more non-space characters greedily. -/
def takeNonSpace (l : List Char) : List Char := l.takeWhile (fun c => !pyIsSpace c)

/-- Attempt of the regex https?://[^ \t..]+ anchored at the current
position: the optional s is tried greedily and at least one non-space
character must follow the scheme. -/
def urlMatchAt (l : List Char) : Option (List Char) :=
  if "https://".data.isPrefixOf l && !(takeNonSpace (l.drop 8)).isEmpty then
    some ("https://".data ++ takeNonSpace (l.drop 8))
  else if "http://".data.isPrefixOf l && !(takeNonSpace (l.drop 7)).isEmpty then
    some ("http://".data ++ takeNonSpace (l.drop 7))
  else none

/-- Leftmost regex match: re.search scans every start position left to
right and returns the first successful match. -/
def findUrl : List Char → Option (List Char)
  | [] => none
  | c :: t =>
    match urlMatchAt (c :: t) with
    | some m => some m
    | none => findUrl t

/-- re.search of the URL pattern over a display string, returning the
matched substring. -/
def searchUrl (s : String) : Option String := (findUrl s.data).map (fun l => ⟨l⟩)

/-- Method 1 of the source: scan textFormatRuns in order and take the uri
of the first run whose format carries a link. -/
def runLink : List TextRun → Option String
  | [] => none
  | r :: t =>
    match r.link with
    | some u => some u
    | none => runLink t

/-- Method 1 applied to a cell: only when the textFormatRuns key is present. -/
def method1 (cell : Cell) : Option String :=
  match cell.textFormatRuns with
  | some runs => runLink runs
  | none => none

/-- Method 2 of the source: if not story_url and the hyperlink key is
present, take the whole-cell hyperlink. -/
def method2 (u : Option String) (cell : Cell) : Option String :=
  if falsyOpt u then
    match cell.hyperlink with
    | some h => some h
    | none => u
  else u

/-- Method 3 of the source: if not story_url and the formattedValue key is
present, regex-search the display text. -/
def method3 (u : Option String) (cell : Cell) : Option String :=
  if falsyOpt u then
    match cell.formattedValue with
    | some fv =>
      match searchUrl fv with
      | some m => some m
      | none => u
    | none => u
  else u

/-- The full three-method URL resolution the source applies to the story,
image, headlines and cutlines cells. -/
def extractCellUrl (cell : Cell) : Option String :=
  method3 (method2 (method1 cell) cell) cell

/-! ## Row Eligibility Filter (google_integration.get_eligible_rows) -/

/-- values[i].get of formattedValue with default empty string, guarded by
len(values) greater than i, exactly as the ready and online checks do. -/
def fvAt (values : List Cell) (i : Nat) : String :=
  match values.get? i with
  | some c => c.formattedValue.getD ""
  | none => ""

/-- Key-presence test formattedValue in values[i] for i below the length. -/
def hasFVAt (values : List Cell) (i : Nat) : Bool :=
  match values.get? i with
  | some c => c.formattedValue.isSome
  | none => false

/-- values[i] if len(values) greater than i else the empty dict. -/
def cellAt (values : List Cell) (i : Nat) : Cell := (values.get? i).getD {}

/-- The truthy set of the ready and online checks. -/
def truthySet : List String := ["TRUE", "✓", "YES", "1"]

/-- Membership of the upper-cased cell value in the truthy set. -/
def isTruthy (s : String) : Bool := truthySet.contains (upperStr s)

/-- Section header test of the source: column A has a formattedValue whose
stripped text is non-empty, and none of columns B, D, E carries a
formattedValue key. -/
def isSectionHeader (values : List Cell) : Bool :=
  match values.get? 0 with
  | none => false
  | some c0 =>
    match c0.formattedValue with
    | none => false
    | some t =>
      !(stripL t.data).isEmpty &&
        !(hasFVAt values 1 || hasFVAt values 3 || hasFVAt values 4)

/-- The stripped column A text a header row installs as the new section. -/
def headerLabel (values : List Cell) : String :=
  pyStrip ((cellAt values 0).formattedValue.getD "")

/-- URL extraction of an optional column: the source only runs the three
methods when the column index exists. -/
def urlAtColumn (values : List Cell) (i : Nat) : Option String :=
  match values.get? i with
  | some c => extractCellUrl c
  | none => none

/-- Author names from column H: comma split of the stripped value when the
cell carries a non-empty formattedValue. -/
def authorNames (values : List Cell) : List String :=
  match values.get? 7 with
  | some c =>
    match c.formattedValue with
    | some v =>
      let a := pyStrip v
      if a.data.isEmpty then [] else splitCommaStrip a
    | none => []
  | none => []

/-- Categories from column O before the section fallback: comma split of
the stripped value when column O exists and carries non-empty text. -/
def categoriesRaw (values : List Cell) : List String :=
  match values.get? 14 with
  | some c =>
    match c.formattedValue with
    | some v =>
      let t := pyStrip v
      if t.data.isEmpty then [] else splitCommaStrip t
    | none => []
  | none => []

/-- Photographer name from column P: the stripped value when present. -/
def photographerName (values : List Cell) : Option String :=
  match values.get? 15 with
  | some c => c.formattedValue.map pyStrip
  | none => none

/-- One emitted content candidate, the dict appended to eligible_rows. -/
structure SheetRow where
  row : Nat
  doc_url : String
  image_url : Option String
  headlines_url : Option String
  cutlines_url : Option String
  author_names : List String
  categories : List String
  photographer_name : Option String
  online_cell : String
  sectionLabel : String
deriving DecidableEq

/-- Body of the row loop: given the running section, the 1-based sheet row
number and the cell values, the new section and the emitted candidate if
the row is eligible. -/
def processRow (sec : String) (rowNum : Nat) (values : List Cell) :
    String × Option SheetRow :=
  if values.isEmpty then (sec, none)
  else if isSectionHeader values then (headerLabel values, none)
  else if !isTruthy (fvAt values 1) then (sec, none)
  else if isTruthy (fvAt values 3) then (sec, none)
  else
    match extractCellUrl (cellAt values 4) with
    | none => (sec, none)
    | some u =>
      if u.data.isEmpty then (sec, none)
      else
        let cats := categoriesRaw values
        (sec, some {
          row := rowNum
          doc_url := u
          image_url := urlAtColumn values 13
          headlines_url := urlAtColumn values 15
          cutlines_url := urlAtColumn values 16
          author_names := authorNames values
          categories := if cats.isEmpty then [sec] else cats
          photographer_name := photographerName values
          online_cell := "D" ++ Nat.repr rowNum
          sectionLabel := sec })

/-- Accumulator of the row scan: the running section and the emitted rows. -/
structure ScanState where
  sec : String
  rows : List SheetRow
deriving DecidableEq

/-- One fold step of the scan. -/
def scanStep (st : ScanState) (p : Nat × List Cell) : ScanState :=
  match processRow st.sec p.1 p.2 with
  | (s, none) => { sec := s, rows := st.rows }
  | (s, some r) => { sec := s, rows := st.rows ++ [r] }

/-- get_eligible_rows on the grid data: skip the seven header rows, number
the rest from 8, and fold the row scan from section Uncategorized. -/
def getEligibleRows (rows : List (List Cell)) : List SheetRow :=
  (((rows.drop 7).enumFrom 8).foldl scanStep
    { sec := "Uncategorized", rows := [] }).rows

/-! ## Taxonomy Matcher: categories (wordpress_integration.get_category_ids) -/

/-- A backend category as returned by the category list endpoint. -/
structure WpCategory where
  name : String
  id : Nat
deriving DecidableEq

/-- The stop-word list of the word-level strategy. -/
def commonWords : List String :=
  ["and", "or", "the", "in", "on", "at", "to", "for", "with", "by", "of"]

/-- Strategy 1 predicate: exact case-insensitive name equality. -/
def catExact (orig : String) (c : WpCategory) : Bool :=
  lowerStr c.name == lowerStr orig

/-- Strategy 2 predicate: equality after conjunction normalisation of the
requested name in either direction. -/
def catStd (stdAnd stdAmp : String) (c : WpCategory) : Bool :=
  lowerStr c.name == lowerStr stdAnd || lowerStr c.name == lowerStr stdAmp

/-- Strategy 3 predicate: the requested name or a normalised variant occurs
inside the candidate name. -/
def catSub (orig stdAnd stdAmp : String) (c : WpCategory) : Bool :=
  containsStr (lowerStr c.name) (lowerStr orig) ||
    containsStr (lowerStr c.name) (lowerStr stdAnd) ||
    containsStr (lowerStr c.name) (lowerStr stdAmp)

/-- Strategy 4 word loop: for each significant word in order, the first
candidate category containing it wins. -/
def firstWordMatch (cats : List WpCategory) : List String → Option Nat
  | [] => none
  | w :: ws =>
    match cats.find? (fun c => containsStr (lowerStr c.name) (lowerStr w)) with
    | some c => some c.id
    | none => firstWordMatch cats ws

/-- The significant words of a requested name: whitespace split, keep words
longer than two characters whose lower case is not a stop word. -/
def significantWords (orig : String) : List String :=
  (pySplitWs orig).filter
    (fun w => decide (w.length > 2) && !commonWords.contains (lowerStr w))

/-- The per-name cascade of get_category_ids: exact, conjunction
normalised, substring, then word level, stopping at the first success. -/
def matchCategory (cats : List WpCategory) (name : String) : Option Nat :=
  let orig := pyStrip name
  let stdAnd := replaceAll orig "&" "and"
  let stdAmp := replaceAll orig " and " " & "
  match cats.find? (catExact orig) with
  | some c => some c.id
  | none =>
    match cats.find? (catStd stdAnd stdAmp) with
    | some c => some c.id
    | none =>
      match cats.find? (catSub orig stdAnd stdAmp) with
      | some c => some c.id
      | none => firstWordMatch cats (significantWords orig)

/-- The final duplicate removal loop of get_category_ids: keep the first
occurrence of every id, preserving order. -/
def dedupFirst (l : List Nat) : List Nat :=
  l.foldl (fun acc i => if acc.contains i then acc else acc ++ [i]) []

/-- get_category_ids on an already fetched category list: match every
requested name independently, drop unmatched names, deduplicate. -/
def getCategoryIds (cats : List WpCategory) (names : List String) : List Nat :=
  dedupFirst (names.filterMap (matchCategory cats))

/-! ## Taxonomy Matcher: authors (wordpress_integration.get_or_create_author_id) -/

/-- A backend user as returned by the user search endpoint. -/
structure WpUser where
  name : String
  id : Nat
deriving DecidableEq

/-- The primary author: strip the raw string, split on commas, strip the
first piece. -/
def primaryAuthor (author_name : String) : String :=
  pyStrip ⟨(splitCommaL (pyStrip author_name).data).headD []⟩

/-- Handling of a search response: with results, the first exact
case-insensitive full-name match wins, else the first result; with no
results the caller falls through to creation. -/
def resolveFromSearch (users : List WpUser) (primary : String) : Option Nat :=
  match users with
  | [] => none
  | u0 :: _ =>
    match users.find? (fun u => lowerStr u.name == lowerStr primary) with
    | some u => some u.id
    | none => some u0.id

/-- The user payload create_wordpress_user assembles (the random email
domain and password are not part of any claim and are left out). -/
structure NewUserRequest where
  username : String
  first_name : String
  last_name : String
deriving DecidableEq

/-- Python last_name.lower().replace(of a space, nothing). -/
def removeSpaces (s : String) : String := ⟨s.data.filter (fun c => c ≠ ' ')⟩

/-- Python space-join of the remaining name parts. -/
def joinSpace (l : List String) : String := String.intercalate " " l

/-- create_wordpress_user up to the backend call: none when the name has
fewer than two whitespace-separated tokens, else the assembled payload
with username first.last in lowercase and internal spaces removed. -/
def createWordpressUser (full_name : String) : Option NewUserRequest :=
  match pySplitWs (pyStrip full_name) with
  | [] => none
  | [_] => none
  | first :: rest =>
    let last := joinSpace rest
    some {
      username := lowerStr first ++ "." ++ removeSpaces (lowerStr last)
      first_name := first
      last_name := last }

/-- Outcome of get_or_create_author_id before any backend write: an
existing id, a creation payload, or a reported failure. -/
inductive AuthorResolution where
  | found (userId : Nat)
  | create (req : NewUserRequest)
  | failed
deriving DecidableEq

/-- get_or_create_author_id with the search response supplied by the
backend collaborator: resolve only the primary author, prefer the exact
match, fall through to creation when the search yields nothing. -/
def resolveAuthor (users : List WpUser) (author_name : String) : AuthorResolution :=
  let primary := primaryAuthor author_name
  match resolveFromSearch users primary with
  | some uid => .found uid
  | none =>
    match createWordpressUser primary with
    | some req => .create req
    | none => .failed

/-! ## Rich-Document Sectionizer: cutlines (google_integration.parse_cutlines_doc) -/

/-- One parsed cutline option. -/
structure CutlineEntry where
  slug : String
  cutline : String
  photo_credit : Option String
  category : String
  original : String
deriving DecidableEq

/-- Post-processing of the credit piece: strip, then drop one leading colon
and strip again. -/
def creditClean (post : List Char) : List Char :=
  match stripL post with
  | ':' :: t => stripL t
  | c => c

/-- Photo-credit extraction of the source: split at the first PHOTO CREDIT
occurrence when present, else at the first PHOTO CREDITS occurrence, else
leave the text untouched.  The marker comparison is case sensitive. -/
def extractCredit (t : List Char) : List Char × Option (List Char) :=
  match splitMarker "PHOTO CREDIT".data t with
  | some (pre, post) => (stripL pre, some (creditClean post))
  | none =>
    match splitMarker "PHOTO CREDITS".data t with
    | some (pre, post) => (stripL pre, some (creditClean post))
    | none => (t, none)

/-- Entry assembly from the bullet-stripped line l split at its first
colon into p and q. -/
def mkCutline (cat : String) (l p q : List Char) : CutlineEntry :=
  let pc := extractCredit (stripL q)
  { slug := ⟨stripL p⟩
    cutline := ⟨pc.1⟩
    photo_credit := pc.2.map (fun c => (⟨c⟩ : String))
    category := cat
    original := ⟨l⟩ }

/-- The leading-asterisk removal of the source: when the line starts with
a bullet, drop it and strip the remainder. -/
def bulletStrip (l : List Char) : List Char :=
  if l.head? == some '*' then stripL (l.drop 1) else l

/-- Body of the cutline tab loop: skip the Cutlines marker line, switch
category on a line whose only colon is final, skip empty lines, otherwise
parse an entry from any line containing a colon after stripping a leading
bullet. -/
def cutlineStep (st : String × List CutlineEntry) (line : String) :
    String × List CutlineEntry :=
  if lowerStr line == "cutlines" then st
  else if endsWithChar ':' line.data && !(line.data.dropLast.contains ':') then
    (rstripColons line, st.2)
  else if line.data.isEmpty then st
  else if line.data.contains ':' then
    match splitFirstChar ':' (bulletStrip line.data) with
    | some (p, q) => (st.1, st.2 ++ [mkCutline st.1 (bulletStrip line.data) p q])
    | none => st
  else st

/-- Processing of the tab in which the Cutlines marker was found. -/
def processCutlineTab (lines : List String) : List CutlineEntry :=
  (lines.foldl cutlineStep ("Uncategorized", [])).2

/-- Body of the NEWS fallback loop of the cutlines parser: identical to
cutlineStep except that there is no Cutlines marker skip. -/
def newsCutlineStep (st : String × List CutlineEntry) (line : String) :
    String × List CutlineEntry :=
  if endsWithChar ':' line.data && !(line.data.dropLast.contains ':') then
    (rstripColons line, st.2)
  else if line.data.isEmpty then st
  else if line.data.contains ':' then
    match splitFirstChar ':' (bulletStrip line.data) with
    | some (p, q) => (st.1, st.2 ++ [mkCutline st.1 (bulletStrip line.data) p q])
    | none => st
  else st

/-- The lines after the first literal NEWS: line, when one exists. -/
def afterNews : List String → Option (List String)
  | [] => none
  | l :: t => if l == "NEWS:" then some t else afterNews t

/-- Marker test for the cutlines tab search. -/
def hasCutlinesMarker (t : List String) : Bool :=
  t.any (fun l => lowerStr l == "cutlines")

/-- parse_cutlines_doc in tab mode: the first tab containing a Cutlines
marker line is processed and the search stops; with no such tab, the first
tab containing a literal NEWS: line is processed from the line after the
marker with category NEWS; otherwise the result is empty. -/
def parseCutlinesTabs (tabs : List (List String)) : List CutlineEntry :=
  match tabs.find? hasCutlinesMarker with
  | some t => processCutlineTab t
  | none =>
    match tabs.find? (fun t => t.contains "NEWS:") with
    | some t => (((afterNews t).getD []).foldl newsCutlineStep ("NEWS", [])).2
    | none => []

/-! ## Rich-Document Sectionizer: headlines (google_integration.parse_headlines_doc) -/

/-- One parsed headline option. -/
structure HeadlineEntry where
  slug : String
  headline : String
  category : String
  original : String
deriving DecidableEq

/-- Normalisation of an embedded SH: marker inside a headline text. -/
def shFix (t : List Char) : List Char :=
  match splitMarker "SH:".data t with
  | some (a, b) => stripL a ++ ": ".data ++ stripL b
  | none => t

/-- Per-tab state of the headline tab loop. -/
structure HLState where
  category : String
  inInsides : Bool
  pastInsides : Bool
  inHeadlines : Bool
  found : Bool
  insidesFound : Bool
  entries : List HeadlineEntry
deriving DecidableEq

/-- Body of the headline tab loop: Insides and Headlines marker lines
switch the state flags; inside the active region a line with a trailing
colon switches the category and a line containing a colon becomes an entry
after SH: normalisation. -/
def headlineStep (st : HLState) (line : String) : HLState :=
  if lowerStr line == "insides" then
    { st with inInsides := true, insidesFound := true }
  else if lowerStr line == "headlines" then
    { st with inHeadlines := true, inInsides := false, pastInsides := true,
              found := true }
  else if !st.inInsides && (st.inHeadlines || st.pastInsides) then
    if endsWithChar ':' line.data then { st with category := rstripColons line }
    else if line.data.isEmpty || !line.data.contains ':' then st
    else
      match splitFirstChar ':' line.data with
      | some (p, q) =>
        { st with entries := st.entries ++ [{
            slug := ⟨stripL p⟩
            headline := ⟨shFix (stripL q)⟩
            category := st.category
            original := line }] }
      | none => st
  else st

/-- Result of the headline tab scan: the accumulated entries and the two
flags carried across tabs. -/
structure HLScanOut where
  entries : List HeadlineEntry
  found : Bool
  insidesFound : Bool
deriving DecidableEq

/-- Tab skip test of the headline scan: a tab is processed only when it
contains a Headlines or an Insides marker line. -/
def hlTabMarker (t : List String) : Bool :=
  t.any (fun l => lowerStr l == "headlines") ||
    t.any (fun l => lowerStr l == "insides")

/-- The headline tab scan: skip markerless tabs, fold the step over a
processed tab with the per-tab flags reset, and stop as soon as a tab set
the found flag. -/
def scanHeadlineTabs (found insides : Bool) (entries : List HeadlineEntry) :
    List (List String) → HLScanOut
  | [] => ⟨entries, found, insides⟩
  | t :: rest =>
    if !hlTabMarker t then scanHeadlineTabs found insides entries rest
    else
      let st := t.foldl headlineStep
        { category := "Uncategorized", inInsides := false, pastInsides := false,
          inHeadlines := false, found := found, insidesFound := insides,
          entries := entries }
      if st.found then ⟨st.entries, st.found, st.insidesFound⟩
      else scanHeadlineTabs st.found st.insidesFound st.entries rest

/-- Body of the NEWS fallback loop of the headline parser: any line with a
trailing colon switches the category, any other line containing a colon
becomes an entry with no SH: normalisation. -/
def hlNewsStep (st : String × List HeadlineEntry) (line : String) :
    String × List HeadlineEntry :=
  if !line.data.contains ':' || endsWithChar ':' line.data then
    if endsWithChar ':' line.data then (rstripColons line, st.2) else st
  else
    match splitFirstChar ':' line.data with
    | some (p, q) =>
      (st.1, st.2 ++ [{ slug := ⟨stripL p⟩, headline := ⟨stripL q⟩,
                        category := st.1, original := line }])
    | none => st

/-- The NEWS fallback of the headline parser: the first tab containing a
literal NEWS: line is processed from the line after the marker. -/
def headlinesNewsFallback (tabs : List (List String)) : Option (List HeadlineEntry) :=
  match tabs.find? (fun t => t.contains "NEWS:") with
  | some t => some ((((afterNews t).getD []).foldl hlNewsStep ("NEWS", [])).2)
  | none => none

/-- Whether parse_headlines_doc in tab mode reaches its NEWS fallback:
neither flag was set by the scan. -/
def hlFallbackUsed (tabs : List (List String)) : Bool :=
  !(scanHeadlineTabs false false [] tabs).found &&
    !(scanHeadlineTabs false false [] tabs).insidesFound

/-- parse_headlines_doc in tab mode: the scan result when a Headlines
marker was found; the NEWS fallback when neither marker was found
anywhere; the empty list otherwise. -/
def parseHeadlinesTabs (tabs : List (List String)) : List HeadlineEntry :=
  if (scanHeadlineTabs false false [] tabs).found then
    (scanHeadlineTabs false false [] tabs).entries
  else if !(scanHeadlineTabs false false [] tabs).insidesFound then
    match headlinesNewsFallback tabs with
    | some entries => entries
    | none => []
  else []

/-! ## Redaction Selector (google_integration.parse_redaction_doc) -/

/-- A scripted decision of the keystroke loop: the spacebar default-accept
gesture, or a typed input submitted with the enter key. -/
inductive Decision where
  | space
  | enter (input : String)
deriving DecidableEq

/-- Python user_input.isdigit: non-empty and all digits. -/
def pyIsDigitStr (s : String) : Bool := !s.data.isEmpty && s.data.all Char.isDigit

/-- Python int of a digit string. -/
def digitsToNat (s : String) : Nat :=
  s.data.foldl (fun a c => 10 * a + (c.toNat - 48)) 0

/-- The input loop of parse_redaction_doc with a scripted decision
provider: spacebar accepts the default line 4; an entered digit string in
range is accepted; an entered empty input accepts the default; any other
entered input re-prompts; an exhausted script means the interactive loop
would block, returned as none. -/
def selectStartLine (lineCount : Nat) : List Decision → Option Nat
  | [] => none
  | .space :: _ => some 4
  | .enter s :: rest =>
    if pyIsDigitStr s && decide (1 ≤ digitsToNat s) &&
        decide (digitsToNat s ≤ lineCount) then
      some (digitsToNat s)
    else if s == "" then some 4
    else selectStartLine lineCount rest

/-- The document lines after per-paragraph stripping and removal of the
leading empty lines. -/
def leadingStripped (paraTexts : List String) : List String :=
  (paraTexts.map pyStrip).dropWhile (fun l => l.data.isEmpty)

/-- parse_redaction_doc after a successful fetch: empty document gives the
empty string; otherwise the newline join of the non-empty lines from the
chosen 1-based start line to the end. -/
def parseRedactionLines (paraTexts : List String) (ds : List Decision) :
    Option String :=
  if (leadingStripped paraTexts).isEmpty then some ""
  else
    match selectStartLine (leadingStripped paraTexts).length ds with
    | some k =>
      some (String.intercalate "\n"
        (((leadingStripped paraTexts).drop (k - 1)).filter (fun l => !l.data.isEmpty)))
    | none => none

/-- parse_redaction_doc including its outermost exception handler: a
failed fetch returns the error message string instead of raising. -/
def parseRedactionDoc (fetch : Except String (List String)) (ds : List Decision) :
    Option String :=
  match fetch with
  | .error e => some ("Error parsing document: " ++ e)
  | .ok paras => parseRedactionLines paras ds

/-- The caller check in main: only an empty redaction string raises; any
non-empty string is used as the post body. -/
def checkRedaction (redaction : String) : Except String String :=
  if redaction.data.isEmpty then .error "Failed to parse redaction document"
  else .ok redaction

/-! ## Row-boundary error containment (main.main and get_eligible_rows) -/

/-- The per-row status record of the processing loop, restricted to the
fields the containment claim is about. -/
structure PostInfo where
  row : Nat
  sectionLabel : String
  status : String
  error_details : Option String
deriving DecidableEq

/-- The freshly initialised post_info dict of the loop body. -/
def initPostInfo (r : SheetRow) : PostInfo :=
  { row := r.row, sectionLabel := r.sectionLabel, status := "Skipped",
    error_details := none }

/-- One guarded step of the sheet scan: the try block either finishes with
a new scan state or raises, and the except clause keeps the old state and
continues. -/
def scanStepCaught (proc : ScanState → Nat × List Cell → Except String ScanState)
    (st : ScanState) (p : Nat × List Cell) : ScanState :=
  match proc st p with
  | .ok st2 => st2
  | .error _ => st

/-- The sheet scan with its per-row exception handler. -/
def scanCaught (proc : ScanState → Nat × List Cell → Except String ScanState)
    (items : List (Nat × List Cell)) (st0 : ScanState) : ScanState :=
  items.foldl (scanStepCaught proc) st0

/-- The non-raising instantiation of the scan body: the pure row logic of
get_eligible_rows. -/
def pureRowProc (st : ScanState) (p : Nat × List Cell) : Except String ScanState :=
  .ok (scanStep st p)

/-- The per-row processing loop of main with its try and except: on
success the body delivers the final status record, on an exception the
partially updated record is marked Failed with the captured detail and the
loop continues with the next row. -/
def processBatch (proc : SheetRow → PostInfo → Except (String × PostInfo) PostInfo)
    (rows : List SheetRow) : List PostInfo :=
  rows.map (fun r =>
    match proc r (initPostInfo r) with
    | .ok info => info
    | .error (e, pinfo) => { pinfo with status := "Failed", error_details := some e })

/-! ## Helper lemmas on the string model -/

theorem dropWhile_shape (p : Char → Bool) (l : List Char) :
    l.dropWhile p = [] ∨ ∃ c t, l.dropWhile p = c :: t ∧ p c = false := by
  induction l with
  | nil => exact Or.inl rfl
  | cons a t ih =>
    by_cases h : p a
    · simpa [List.dropWhile_cons, h] using ih
    · exact Or.inr ⟨a, t, by simp [List.dropWhile_cons, h], by simp [h]⟩

theorem lstripL_idem (l : List Char) : lstripL (lstripL l) = lstripL l := by
  unfold lstripL
  rcases dropWhile_shape pyIsSpace l with h | ⟨c, t, h, hc⟩
  · simp [h]
  · simp [h, List.dropWhile_cons, hc]

theorem rstripL_decomp (l : List Char) :
    ∃ z, l = rstripL l ++ z ∧ ∀ c ∈ z, pyIsSpace c = true := by
  refine ⟨(l.reverse.takeWhile pyIsSpace).reverse, ?_, ?_⟩
  · unfold rstripL
    conv_lhs => rw [← l.reverse_reverse, ← List.takeWhile_append_dropWhile (p := pyIsSpace) (l := l.reverse)]
    rw [List.reverse_append]
  · intro c hc
    rw [List.mem_reverse] at hc
    exact List.mem_takeWhile_imp hc

theorem lstripL_decomp (l : List Char) :
    ∃ w, l = w ++ lstripL l ∧ ∀ c ∈ w, pyIsSpace c = true := by
  refine ⟨l.takeWhile pyIsSpace, ?_, ?_⟩
  · exact (List.takeWhile_append_dropWhile (p := pyIsSpace) (l := l)).symm
  · intro c hc
    exact List.mem_takeWhile_imp hc

theorem stripL_decomp (l : List Char) :
    ∃ w z, l = w ++ stripL l ++ z ∧ (∀ c ∈ w, pyIsSpace c = true) ∧
      (∀ c ∈ z, pyIsSpace c = true) := by
  obtain ⟨w, hw, hws⟩ := lstripL_decomp l
  obtain ⟨z, hz, hzs⟩ := rstripL_decomp (lstripL l)
  refine ⟨w, z, ?_, hws, hzs⟩
  unfold stripL
  rw [List.append_assoc, ← hz, ← hw]

theorem rstripL_head (l : List Char) :
    rstripL l = [] ∨ ∃ c t, rstripL l = c :: t ∧ l.head? = some c := by
  cases h : rstripL l with
  | nil => exact Or.inl rfl
  | cons c t =>
    refine Or.inr ⟨c, t, rfl, ?_⟩
    obtain ⟨z, hz, _⟩ := rstripL_decomp l
    rw [hz, h]
    rfl

theorem rstripL_last (l : List Char) :
    rstripL l = [] ∨ ∃ c, (rstripL l).getLast? = some c ∧ pyIsSpace c = false := by
  unfold rstripL
  rcases dropWhile_shape pyIsSpace l.reverse with h | ⟨c, t, h, hc⟩
  · simp [h]
  · refine Or.inr ⟨c, ?_, hc⟩
    rw [h, List.getLast?_reverse]
    rfl

theorem rstripL_idem (l : List Char) : rstripL (rstripL l) = rstripL l := by
  unfold rstripL
  rw [List.reverse_reverse]
  rcases dropWhile_shape pyIsSpace l.reverse with h | ⟨c, t, h, hc⟩
  · simp [h]
  · simp [h, List.dropWhile_cons, hc]

theorem lstripL_of_head (l : List Char) (c : Char) (t : List Char)
    (h : l = c :: t) (hc : pyIsSpace c = false) : lstripL l = l := by
  subst h
  simp [lstripL, List.dropWhile_cons, hc]

theorem stripL_idem (l : List Char) : stripL (stripL l) = stripL l := by
  unfold stripL
  rcases rstripL_head (lstripL l) with h | ⟨c, t, h, hc⟩
  · rw [h]; rfl
  · have hcns : pyIsSpace c = false := by
      rcases dropWhile_shape pyIsSpace l with h2 | ⟨c2, t2, h2, hc2⟩
      · rw [show lstripL l = [] from h2] at h
        simp [rstripL] at h
      · rw [show lstripL l = c2 :: t2 from h2] at hc
        simp at hc
        rw [← hc]
        exact hc2
    have hl : lstripL (rstripL (lstripL l)) = rstripL (lstripL l) :=
      lstripL_of_head _ c t h hcns
    rw [hl, rstripL_idem]

theorem stripL_nil_allspace (l : List Char) (h : stripL l = []) :
    ∀ c ∈ l, pyIsSpace c = true := by
  intro c hc
  obtain ⟨w, z, hdec, hw, hz⟩ := stripL_decomp l
  rw [hdec, h] at hc
  simp at hc
  rcases hc with hc | hc
  · exact hw c hc
  · exact hz c hc

theorem stripL_last_not_space (l : List Char) (hne : stripL l ≠ []) :
    ∃ c, (stripL l).getLast? = some c ∧ pyIsSpace c = false := by
  unfold stripL at *
  rcases rstripL_last (lstripL l) with h | h
  · exact absurd h hne
  · exact h

theorem stripL_eq_self_last (l : List Char) (h : stripL l = l) (hne : l ≠ []) :
    ∃ c, l.getLast? = some c ∧ pyIsSpace c = false := by
  have := stripL_last_not_space l (by rw [h]; exact hne)
  rwa [h] at this

theorem stripL_sublist (l : List Char) : (stripL l).Sublist l := by
  have h1 : (stripL l).Sublist (lstripL l) := by
    obtain ⟨z, hz, _⟩ := rstripL_decomp (lstripL l)
    have : (stripL l) <+: lstripL l := by
      rw [stripL]
      exact ⟨z, hz.symm⟩
    exact this.sublist
  have h2 : (lstripL l).Sublist l := List.dropWhile_sublist pyIsSpace
  exact h1.trans h2

theorem prefix_decomp (m l : List Char) (h : m.isPrefixOf l = true) :
    l = m ++ l.drop m.length := by
  obtain ⟨r, hr⟩ := List.isPrefixOf_iff_prefix.mp h
  rw [← hr, List.drop_left]

theorem splitFirstChar_spec (c : Char) :
    ∀ l p q, splitFirstChar c l = some (p, q) → l = p ++ c :: q ∧ c ∉ p := by
  intro l
  induction l with
  | nil => intro p q h; simp [splitFirstChar] at h
  | cons a t ih =>
    intro p q h
    by_cases hac : a = c
    · rw [splitFirstChar, if_pos hac] at h
      obtain ⟨hp, hq⟩ : [] = p ∧ t = q := by
        constructor <;> [exact congrArg Prod.fst (Option.some.inj h);
          exact congrArg Prod.snd (Option.some.inj h)]
      subst hp; subst hq; subst hac
      exact ⟨rfl, by simp⟩
    · rw [splitFirstChar, if_neg hac] at h
      cases h2 : splitFirstChar c t with
      | none => rw [h2] at h; exact absurd h (by simp)
      | some pq =>
        obtain ⟨p', q'⟩ := pq
        rw [h2] at h
        obtain ⟨hp, hq⟩ : a :: p' = p ∧ q' = q := by
          constructor <;> [exact congrArg Prod.fst (Option.some.inj h);
            exact congrArg Prod.snd (Option.some.inj h)]
        subst hp; subst hq
        obtain ⟨hl, hnp⟩ := ih p' q' h2
        constructor
        · rw [hl]; rfl
        · intro hmem
          rcases List.mem_cons.mp hmem with h3 | h3
          · exact hac h3.symm
          · exact hnp h3

theorem splitMarker_spec (m : List Char) (hm : m ≠ []) :
    ∀ l p q, splitMarker m l = some (p, q) →
      l = p ++ m ++ q ∧ containsL m p = false := by
  intro l
  induction l with
  | nil =>
    intro p q h
    rw [splitMarker, if_neg (by simpa using hm)] at h
    exact absurd h (by simp)
  | cons a t ih =>
    intro p q h
    by_cases hpre : m.isPrefixOf (a :: t) = true
    · rw [splitMarker, if_pos hpre] at h
      obtain ⟨hp, hq⟩ : [] = p ∧ (a :: t).drop m.length = q := by
        constructor <;> [exact congrArg Prod.fst (Option.some.inj h);
          exact congrArg Prod.snd (Option.some.inj h)]
      subst hp; subst hq
      refine ⟨?_, by simp [containsL, List.isEmpty_iff, hm]⟩
      simpa using prefix_decomp m (a :: t) hpre
    · rw [splitMarker, if_neg hpre] at h
      cases h2 : splitMarker m t with
      | none => rw [h2] at h; exact absurd h (by simp)
      | some pq =>
        obtain ⟨p', q'⟩ := pq
        rw [h2] at h
        obtain ⟨hp, hq⟩ : a :: p' = p ∧ q' = q := by
          constructor <;> [exact congrArg Prod.fst (Option.some.inj h);
            exact congrArg Prod.snd (Option.some.inj h)]
        subst hp; subst hq
        obtain ⟨hl, hnp⟩ := ih p' q' h2
        constructor
        · rw [hl]; rfl
        · rw [containsL]
          simp only [Bool.or_eq_false_iff]
          refine ⟨?_, hnp⟩
          by_contra h3
          apply hpre
          rw [Bool.not_eq_false] at h3
          apply List.isPrefixOf_iff_prefix.mpr
          have hpp : m <+: a :: p' := List.isPrefixOf_iff_prefix.mp h3
          have : (a :: p') <+: (a :: t) := by
            refine ⟨m ++ q', ?_⟩
            rw [hl]
            simp
          exact hpp.trans this

theorem containsL_eq_isSome (m : List Char) (hm : m ≠ []) :
    ∀ l, containsL m l = (splitMarker m l).isSome := by
  intro l
  induction l with
  | nil => simp [containsL, splitMarker, List.isEmpty_iff, hm]
  | cons a t ih =>
    by_cases hpre : m.isPrefixOf (a :: t) = true
    · simp [containsL, splitMarker, hpre]
    · rw [containsL, splitMarker, if_neg hpre]
      rw [Bool.not_eq_true] at hpre
      rw [hpre, Bool.false_or, ih]
      cases splitMarker m t with
      | none => rfl
      | some pq => rfl

theorem containsL_mono (m m' : List Char) (hmm : m.isPrefixOf m' = true) :
    ∀ l, containsL m' l = true → containsL m l = true := by
  intro l
  induction l with
  | nil =>
    intro h
    simp only [containsL, List.isEmpty_iff] at h ⊢
    subst h
    have := List.isPrefixOf_iff_prefix.mp hmm
    simpa using List.prefix_nil.mp this
  | cons a t ih =>
    intro h
    rw [containsL, Bool.or_eq_true] at h ⊢
    rcases h with h | h
    · left
      apply List.isPrefixOf_iff_prefix.mpr
      exact (List.isPrefixOf_iff_prefix.mp hmm).trans (List.isPrefixOf_iff_prefix.mp h)
    · right; exact ih h

theorem data_ne_nil_of_ne_empty (s : String) (h : s ≠ "") : s.data ≠ [] := by
  intro hd
  apply h
  cases s with
  | mk d => subst hd; rfl

theorem urlMatchAt_spec (l u : List Char) (h : urlMatchAt l = some u) :
    (∀ c ∈ u, pyIsSpace c = false) ∧
      ("http://".data <+: u ∨ "https://".data <+: u) ∧
      ∃ b, l = u ++ b ∧ (b = [] ∨ ∃ c t, b = c :: t ∧ pyIsSpace c = true) := by
  have hsch1 : ∀ c ∈ "https://".data, pyIsSpace c = false := by decide
  have hsch2 : ∀ c ∈ "http://".data, pyIsSpace c = false := by decide
  unfold urlMatchAt at h
  split_ifs at h with h1 h2
  · rw [Bool.and_eq_true] at h1
    have hu : "https://".data ++ takeNonSpace (l.drop 8) = u := Option.some.inj h
    refine ⟨?_, Or.inr ⟨takeNonSpace (l.drop 8), hu⟩, ?_⟩
    · intro c hc
      rw [← hu] at hc
      rcases List.mem_append.mp hc with hc | hc
      · exact hsch1 c hc
      · have := List.mem_takeWhile_imp hc
        simpa using this
    · refine ⟨(l.drop 8).dropWhile (fun c => !pyIsSpace c), ?_, ?_⟩
      · rw [← hu, List.append_assoc, takeNonSpace,
          List.takeWhile_append_dropWhile]
        have := prefix_decomp "https://".data l h1.1
        simpa using this
      · rcases dropWhile_shape (fun c => !pyIsSpace c) (l.drop 8) with hd | ⟨c, t, hd, hc⟩
        · exact Or.inl hd
        · exact Or.inr ⟨c, t, hd, by simpa using hc⟩
  · rw [Bool.and_eq_true] at h2
    have hu : "http://".data ++ takeNonSpace (l.drop 7) = u := Option.some.inj h
    refine ⟨?_, Or.inl ⟨takeNonSpace (l.drop 7), hu⟩, ?_⟩
    · intro c hc
      rw [← hu] at hc
      rcases List.mem_append.mp hc with hc | hc
      · exact hsch2 c hc
      · have := List.mem_takeWhile_imp hc
        simpa using this
    · refine ⟨(l.drop 7).dropWhile (fun c => !pyIsSpace c), ?_, ?_⟩
      · rw [← hu, List.append_assoc, takeNonSpace,
          List.takeWhile_append_dropWhile]
        have := prefix_decomp "http://".data l h2.1
        simpa using this
      · rcases dropWhile_shape (fun c => !pyIsSpace c) (l.drop 7) with hd | ⟨c, t, hd, hc⟩
        · exact Or.inl hd
        · exact Or.inr ⟨c, t, hd, by simpa using hc⟩

theorem findUrl_spec :
    ∀ l u, findUrl l = some u →
      (∀ c ∈ u, pyIsSpace c = false) ∧
        ("http://".data <+: u ∨ "https://".data <+: u) ∧
        ∃ a b, l = a ++ u ++ b ∧ (b = [] ∨ ∃ c t, b = c :: t ∧ pyIsSpace c = true) := by
  intro l
  induction l with
  | nil => intro u h; simp [findUrl] at h
  | cons c0 t ih =>
    intro u h
    rw [findUrl] at h
    cases hm : urlMatchAt (c0 :: t) with
    | some m =>
      rw [hm] at h
      have hmu : m = u := Option.some.inj h
      subst hmu
      obtain ⟨hns, hsch, b, hb, hbs⟩ := urlMatchAt_spec (c0 :: t) m hm
      exact ⟨hns, hsch, [], b, by simpa using hb, hbs⟩
    | none =>
      rw [hm] at h
      obtain ⟨hns, hsch, a, b, hab, hbs⟩ := ih u h
      exact ⟨hns, hsch, c0 :: a, b, by rw [hab]; rfl, hbs⟩

/-- C1 (amended). Cell URL resolution tries the run-level link, then the
whole-cell hyperlink, then the http or https text pattern, in that fixed
order, and returns at most one URL; an empty string produced by an earlier
method is treated as absent and resolution falls through, so the run-level
URI is returned whenever it is non-empty, a non-empty hyperlink is
returned when no run carries a link, and for a cell whose only URL
encoding is plain display text the result is exactly the regex match: a
whitespace-free substring of the display text that starts with the http or
https scheme and extends to the first whitespace character or the end. -/
theorem claim_C1_theorem :
    (∀ cell u, method1 cell = some u → u ≠ "" → extractCellUrl cell = some u)
  ∧ (∀ cell h, falsyOpt (method1 cell) = true → cell.hyperlink = some h →
      h ≠ "" → extractCellUrl cell = some h)
  ∧ (∀ cell fv, method1 cell = none → cell.hyperlink = none →
      cell.formattedValue = some fv → extractCellUrl cell = searchUrl fv)
  ∧ (∀ fv u, searchUrl fv = some u →
      (∀ c ∈ u.data, pyIsSpace c = false) ∧
        ("http://".data <+: u.data ∨ "https://".data <+: u.data) ∧
        ∃ a b, fv.data = a ++ u.data ++ b ∧
          (b = [] ∨ ∃ c t, b = c :: t ∧ pyIsSpace c = true)) := by
  refine ⟨?_, ?_, ?_, ?_⟩
  · intro cell u hm hu
    have hfal : falsyOpt (some u) = false := by
      simp [falsyOpt, List.isEmpty_iff, data_ne_nil_of_ne_empty u hu]
    rw [extractCellUrl, hm]
    simp [method2, method3, hfal]
  · intro cell h hfal hh hne
    have hfal2 : falsyOpt (some h) = false := by
      simp [falsyOpt, List.isEmpty_iff, data_ne_nil_of_ne_empty h hne]
    rw [extractCellUrl]
    rw [show method2 (method1 cell) cell = some h by rw [method2, hfal, hh]; simp]
    simp [method3, hfal2]
  · intro cell fv hm hh hfv
    rw [extractCellUrl, hm]
    rw [show method2 none cell = none by rw [method2]; simp [falsyOpt, hh]]
    rw [method3]
    simp only [falsyOpt, hfv, if_pos]
    cases searchUrl fv with
    | some m => rfl
    | none => rfl
  · intro fv u h
    cases hf : findUrl fv.data with
    | none => rw [searchUrl, hf] at h; exact absurd h (by simp)
    | some m =>
      rw [searchUrl, hf] at h
      have : (⟨m⟩ : String) = u := Option.some.inj h
      subst this
      exact findUrl_spec fv.data m hf

/-- C1 counterexample: a cell carrying both a run-level link (with the
empty string as its URI) and a cell-level hyperlink returns the hyperlink,
not the run-level URI, because the source tests Python truthiness rather
than presence. -/
theorem claim_C1_counterexample :
    method1 ⟨none, some "http://cell.example", some [⟨some ""⟩]⟩ = some ""
  ∧ extractCellUrl ⟨none, some "http://cell.example", some [⟨some ""⟩]⟩
      = some "http://cell.example"
  ∧ some "http://cell.example" ≠ some ("" : String) := by
  refine ⟨rfl, rfl, by decide⟩

/-- C1 witness: the amended theorem applied to a cell carrying a non-empty
run-level link and a hyperlink, and to a text-only cell. -/
theorem claim_C1_witness :
    extractCellUrl ⟨none, some "http://cell.example", some [⟨some "http://run.example"⟩]⟩
      = some "http://run.example"
  ∧ extractCellUrl ⟨some "see https://x.com/a now", none, none⟩
      = searchUrl "see https://x.com/a now" := by
  constructor
  · exact claim_C1_theorem.1 _ "http://run.example" rfl (by decide)
  · exact claim_C1_theorem.2.2.1 _ "see https://x.com/a now" rfl rfl rfl

/-! ## Row eligibility lemmas -/

theorem fvAt_empty_of_not_has (values : List Cell) (i : Nat)
    (h : hasFVAt values i = false) : fvAt values i = "" := by
  unfold hasFVAt at h
  unfold fvAt
  cases hv : values.get? i with
  | none => rfl
  | some c =>
    simp only [hv] at h ⊢
    cases hc : c.formattedValue with
    | none => simp [hc]
    | some v => simp [hc] at h

theorem header_no_ready (values : List Cell) (h : isSectionHeader values = true) :
    isTruthy (fvAt values 1) = false := by
  unfold isSectionHeader at h
  cases hv : values.get? 0 with
  | none => simp only [hv] at h; simp at h
  | some c0 =>
    simp only [hv] at h
    cases hf : c0.formattedValue with
    | none => simp only [hf] at h; simp at h
    | some t =>
      simp only [hf] at h
      rw [Bool.and_eq_true] at h
      have h1 : hasFVAt values 1 = false := by
        have h2 := h.2
        simp only [Bool.not_eq_true', Bool.or_eq_false_iff] at h2
        exact h2.1.1
      rw [fvAt_empty_of_not_has values 1 h1]
      decide

theorem empty_no_ready (values : List Cell) (h : values.isEmpty = true) :
    isTruthy (fvAt values 1) = false := by
  rw [List.isEmpty_iff] at h
  subst h
  decide

theorem processRow_none_of_not_ready (sec : String) (n : Nat) (values : List Cell)
    (h : isTruthy (fvAt values 1) = false) :
    (processRow sec n values).2 = none := by
  unfold processRow
  by_cases h1 : values.isEmpty
  · simp [h1]
  · rw [if_neg h1]
    by_cases h2 : isSectionHeader values
    · simp [h2]
    · rw [if_neg h2, if_pos (by simp [h])]

theorem processRow_emits (sec : String) (n : Nat) (values : List Cell) :
    (∃ r, (processRow sec n values).2 = some r) ↔
      (isTruthy (fvAt values 1) = true ∧ isTruthy (fvAt values 3) = false ∧
        falsyOpt (extractCellUrl (cellAt values 4)) = false) := by
  by_cases hready : isTruthy (fvAt values 1) = true
  · have hemp : values.isEmpty = false := by
      by_contra hc
      rw [Bool.not_eq_false] at hc
      rw [empty_no_ready values hc] at hready
      exact Bool.false_ne_true hready
    have hhdr : isSectionHeader values = false := by
      by_contra hc
      rw [Bool.not_eq_false] at hc
      rw [header_no_ready values hc] at hready
      exact Bool.false_ne_true hready
    unfold processRow
    rw [if_neg (by simp [hemp]), if_neg (by simp [hhdr]),
      if_neg (by simp [hready])]
    by_cases honl : isTruthy (fvAt values 3) = true
    · rw [if_pos honl]
      simp [hready, honl]
    · rw [Bool.not_eq_true] at honl
      rw [if_neg (by simp [honl])]
      cases hurl : extractCellUrl (cellAt values 4) with
      | none => simp [hready, honl, falsyOpt]
      | some u =>
        by_cases hue : u.data.isEmpty = true
        · simp [hue, falsyOpt, hready, honl]
        · rw [Bool.not_eq_true] at hue
          simp [hue, falsyOpt, hready, honl]
  · rw [Bool.not_eq_true] at hready
    constructor
    · rintro ⟨r, hr⟩
      rw [processRow_none_of_not_ready sec n values hready] at hr
      exact absurd hr (by simp)
    · rintro ⟨h1, _⟩
      rw [hready] at h1
      exact absurd h1 (by simp)

theorem scanStep_rows_of_none (st : ScanState) (p : Nat × List Cell)
    (h : (processRow st.sec p.1 p.2).2 = none) :
    (scanStep st p).rows = st.rows := by
  unfold scanStep
  cases hp : processRow st.sec p.1 p.2 with
  | mk s o =>
    rw [hp] at h
    cases o with
    | none => rfl
    | some r => exact absurd h (by simp)

theorem scan_no_rows (items : List (Nat × List Cell))
    (h : ∀ p ∈ items, ∀ s, (processRow s p.1 p.2).2 = none) :
    ∀ st, (items.foldl scanStep st).rows = st.rows := by
  induction items with
  | nil => intro st; rfl
  | cons p items ih =>
    intro st
    have h1 : (scanStep st p).rows = st.rows :=
      scanStep_rows_of_none st p (h p (by simp) st.sec)
    rw [List.foldl_cons, ih (fun q hq s => h q (by simp [hq]) s), h1]

theorem snd_mem_of_mem_enumFrom :
    ∀ (l : List (List Cell)) (n : Nat) (p : Nat × List Cell),
      p ∈ List.enumFrom n l → p.2 ∈ l := by
  intro l
  induction l with
  | nil => intro n p h; simp [List.enumFrom] at h
  | cons a t ih =>
    intro n p h
    rw [List.enumFrom] at h
    rcases List.mem_cons.mp h with h | h
    · subst h; simp
    · exact List.mem_cons_of_mem a (ih (n + 1) p h)

/-- C2. A sheet row is emitted as an eligible candidate precisely when its
ready column value, upper-cased, lies in the truthy set, its online column
value upper-cased does not, and the story column resolves to a truthy URL;
in particular a row whose ready value is not in the truthy set is never
emitted regardless of every other field, and a sheet all of whose rows
fail the ready test yields no eligible rows at all. -/
theorem claim_C2_theorem :
    (∀ sec n values,
      (∃ r, (processRow sec n values).2 = some r) ↔
        (isTruthy (fvAt values 1) = true ∧ isTruthy (fvAt values 3) = false ∧
          falsyOpt (extractCellUrl (cellAt values 4)) = false))
  ∧ (∀ sec n values, isTruthy (fvAt values 1) = false →
      (processRow sec n values).2 = none)
  ∧ (∀ rows, (∀ values ∈ rows, isTruthy (fvAt values 1) = false) →
      getEligibleRows rows = []) := by
  refine ⟨processRow_emits, processRow_none_of_not_ready, ?_⟩
  intro rows h
  unfold getEligibleRows
  rw [scan_no_rows]
  intro p hp s
  apply processRow_none_of_not_ready
  exact h p.2 (List.mem_of_mem_drop (snd_mem_of_mem_enumFrom _ 8 p hp))

/-- C2 witness: the iff applied to a concrete eligible row, the ready
filter applied to a row with ready FALSE and a story link present, and the
scan applied to a sheet of rows that are all not ready. -/
theorem claim_C2_witness :
    (∃ r, (processRow "Sports" 9
      [⟨some "Game story", none, none⟩, ⟨some "TRUE", none, none⟩, ⟨none, none, none⟩,
        ⟨some "FALSE", none, none⟩, ⟨none, some "https://docs.google.com/document/d/abc", none⟩]).2
        = some r)
  ∧ (processRow "Sports" 9
      [⟨some "Game story", none, none⟩, ⟨some "FALSE", none, none⟩, ⟨none, none, none⟩,
        ⟨some "FALSE", none, none⟩, ⟨none, some "https://docs.google.com/document/d/abc", none⟩]).2
        = none
  ∧ getEligibleRows (List.replicate 12
      [⟨some "x", none, none⟩, ⟨some "FALSE", none, none⟩]) = [] := by
  refine ⟨?_, ?_, ?_⟩
  · exact (claim_C2_theorem.1 "Sports" 9 _).mpr (by decide)
  · exact claim_C2_theorem.2.1 "Sports" 9 _ (by decide)
  · exact claim_C2_theorem.2.2 _ (by decide)

/-! ## Section tracking lemmas -/

theorem mkStr_eq_empty_iff (l : List Char) : (⟨l⟩ : String) = "" ↔ l = [] := by
  constructor
  · intro h
    have := congrArg String.data h
    simpa using this
  · intro h; subst h; rfl

theorem isSectionHeader_iff (values : List Cell) :
    isSectionHeader values = true ↔
      ∃ c t, values.get? 0 = some c ∧ c.formattedValue = some t ∧
        pyStrip t ≠ "" ∧ hasFVAt values 1 = false ∧ hasFVAt values 3 = false ∧
        hasFVAt values 4 = false := by
  constructor
  · intro h
    unfold isSectionHeader at h
    cases hv : values.get? 0 with
    | none => simp only [hv] at h; simp at h
    | some c0 =>
      simp only [hv] at h
      cases hf : c0.formattedValue with
      | none => simp only [hf] at h; simp at h
      | some t =>
        simp only [hf] at h
        rw [Bool.and_eq_true] at h
        have h2 := h.2
        simp only [Bool.not_eq_true', Bool.or_eq_false_iff] at h2
        refine ⟨c0, t, rfl, hf, ?_, h2.1.1, h2.1.2, h2.2⟩
        intro hp
        have hnil : stripL t.data = [] := by
          have := congrArg String.data hp
          simpa [pyStrip] using this
        have h1 := h.1
        rw [hnil] at h1
        simp at h1
  · rintro ⟨c0, t, hv, hf, hp, h1, h3, h4⟩
    unfold isSectionHeader
    simp only [hv, hf]
    rw [Bool.and_eq_true]
    have hne : stripL t.data ≠ [] := by
      intro hnil
      apply hp
      show (⟨stripL t.data⟩ : String) = ""
      rw [hnil]
    refine ⟨?_, by simp [h1, h3, h4]⟩
    simp [List.isEmpty_iff, hne]

theorem processRow_header (sec : String) (n : Nat) (values : List Cell)
    (h : isSectionHeader values = true) :
    processRow sec n values = (headerLabel values, none) := by
  have hne : values.isEmpty = false := by
    rcases (isSectionHeader_iff values).mp h with ⟨c0, t, hv, _⟩
    cases values with
    | nil => simp [List.get?] at hv
    | cons a l => rfl
  unfold processRow
  rw [if_neg (by simp [hne]), if_pos h]

theorem processRow_fst (sec : String) (n : Nat) (values : List Cell)
    (h : isSectionHeader values = false) :
    (processRow sec n values).1 = sec := by
  unfold processRow
  split_ifs with h1 h2 h3 h4
  · rfl
  · rw [h] at h2; exact absurd h2 (by simp)
  · rfl
  · rfl
  · cases extractCellUrl (cellAt values 4) with
    | none => rfl
    | some u =>
      by_cases hu : u.data.isEmpty = true
      · simp [hu]
      · rw [Bool.not_eq_true] at hu
        simp [hu]

theorem processRow_emitted_fields (sec : String) (n : Nat) (values : List Cell)
    (r : SheetRow) (h : (processRow sec n values).2 = some r) :
    r.sectionLabel = sec ∧ (categoriesRaw values = [] → r.categories = [sec]) := by
  unfold processRow at h
  by_cases hemp : values.isEmpty = true
  · rw [if_pos hemp] at h; exact absurd h (by simp)
  rw [if_neg hemp] at h
  by_cases hhdr : isSectionHeader values = true
  · rw [if_pos hhdr] at h; exact absurd h (by simp)
  rw [if_neg hhdr] at h
  by_cases hrdy : (!isTruthy (fvAt values 1)) = true
  · rw [if_pos hrdy] at h; exact absurd h (by simp)
  rw [if_neg hrdy] at h
  by_cases honl : isTruthy (fvAt values 3) = true
  · rw [if_pos honl] at h; exact absurd h (by simp)
  rw [if_neg honl] at h
  cases hurl : extractCellUrl (cellAt values 4) with
  | none => simp only [hurl] at h; exact absurd h (by simp)
  | some u =>
    simp only [hurl] at h
    by_cases hu : u.data.isEmpty = true
    · rw [if_pos hu] at h; exact absurd h (by simp)
    · rw [if_neg hu] at h
      simp only [Option.some.injEq] at h
      subst h
      refine ⟨rfl, ?_⟩
      intro hcat
      simp [hcat]

/-- C3. A row with non-blank text in column A and no formattedValue in the
ready, online or story columns is a section header: it installs its
stripped column A text as the running section and emits no candidate; a
non-header row leaves the running section unchanged; every emitted
candidate carries the running section at the time it is scanned, and when
its categories column is empty or absent its category list is exactly the
one-element list holding that section; the scan starts with the section
Uncategorized. -/
theorem claim_C3_theorem :
    (∀ rows, getEligibleRows rows =
      (((rows.drop 7).enumFrom 8).foldl scanStep
        { sec := "Uncategorized", rows := [] }).rows)
  ∧ (∀ values, isSectionHeader values = true ↔
      ∃ c t, values.get? 0 = some c ∧ c.formattedValue = some t ∧
        pyStrip t ≠ "" ∧ hasFVAt values 1 = false ∧ hasFVAt values 3 = false ∧
        hasFVAt values 4 = false)
  ∧ (∀ sec n values, isSectionHeader values = true →
      processRow sec n values = (headerLabel values, none))
  ∧ (∀ sec n values, isSectionHeader values = false →
      (processRow sec n values).1 = sec)
  ∧ (∀ sec n values r, (processRow sec n values).2 = some r →
      r.sectionLabel = sec ∧ (categoriesRaw values = [] → r.categories = [sec])) :=
  ⟨fun _ => rfl, isSectionHeader_iff, processRow_header, processRow_fst,
    processRow_emitted_fields⟩

/-- C3 witness: a concrete header row installs the label Sports and emits
nothing, and a subsequent content row with an empty categories column is
emitted carrying exactly the category list Sports. -/
theorem claim_C3_witness :
    processRow "Uncategorized" 8 [⟨some " Sports ", none, none⟩]
      = ("Sports", none)
  ∧ ∀ r, (processRow "Sports" 9
      [⟨some "Game story", none, none⟩, ⟨some "TRUE", none, none⟩, ⟨none, none, none⟩,
        ⟨some "FALSE", none, none⟩, ⟨none, some "https://docs.google.com/document/d/abc", none⟩]).2
      = some r → r.sectionLabel = "Sports" ∧ r.categories = ["Sports"] := by
  constructor
  · have := claim_C3_theorem.2.2.1 "Uncategorized" 8 [⟨some " Sports ", none, none⟩] (by decide)
    rw [this]
    rfl
  · intro r hr
    have := claim_C3_theorem.2.2.2.2 "Sports" 9 _ r hr
    exact ⟨this.1, this.2 (by decide)⟩

/-! ## Category matcher lemmas -/

theorem dedup_step_nodup :
    ∀ (l acc : List Nat), acc.Nodup →
      (l.foldl (fun acc i => if acc.contains i then acc else acc ++ [i]) acc).Nodup := by
  intro l
  induction l with
  | nil => intro acc h; exact h
  | cons a t ih =>
    intro acc h
    rw [List.foldl_cons]
    by_cases hc : acc.contains a = true
    · rw [if_pos hc]; exact ih acc h
    · rw [if_neg hc]
      apply ih
      rw [List.nodup_append]
      refine ⟨h, List.nodup_singleton a, ?_⟩
      intro x hx hxa
      rw [List.mem_singleton] at hxa
      rw [hxa] at hx
      have ha : a ∉ acc := by simpa using hc
      exact ha hx

theorem dedup_step_mem :
    ∀ (l acc : List Nat) (x : Nat),
      x ∈ l.foldl (fun acc i => if acc.contains i then acc else acc ++ [i]) acc ↔
        x ∈ acc ∨ x ∈ l := by
  intro l
  induction l with
  | nil => intro acc x; simp
  | cons a t ih =>
    intro acc x
    rw [List.foldl_cons]
    by_cases hc : acc.contains a = true
    · rw [if_pos hc, ih]
      have ha : a ∈ acc := by simpa using hc
      constructor
      · rintro (h | h)
        · exact Or.inl h
        · exact Or.inr (List.mem_cons_of_mem a h)
      · rintro (h | h)
        · exact Or.inl h
        · rcases List.mem_cons.mp h with h | h
          · subst h; exact Or.inl ha
          · exact Or.inr h
    · rw [if_neg hc, ih]
      simp [List.mem_append, or_assoc]

theorem dedup_step_sublist :
    ∀ (l acc : List Nat),
      ∃ s, l.foldl (fun acc i => if acc.contains i then acc else acc ++ [i]) acc
        = acc ++ s ∧ s.Sublist l := by
  intro l
  induction l with
  | nil => intro acc; exact ⟨[], by simp, List.nil_sublist []⟩
  | cons a t ih =>
    intro acc
    rw [List.foldl_cons]
    by_cases hc : acc.contains a = true
    · rw [if_pos hc]
      obtain ⟨s, hs, hsub⟩ := ih acc
      exact ⟨s, hs, hsub.cons a⟩
    · rw [if_neg hc]
      obtain ⟨s, hs, hsub⟩ := ih (acc ++ [a])
      exact ⟨a :: s, by rw [hs]; simp, hsub.cons₂ a⟩

theorem dedupFirst_spec (l : List Nat) :
    (dedupFirst l).Nodup ∧ (dedupFirst l).Sublist l ∧
      (∀ x, x ∈ dedupFirst l ↔ x ∈ l) := by
  refine ⟨dedup_step_nodup l [] (List.nodup_nil), ?_, ?_⟩
  · obtain ⟨s, hs, hsub⟩ := dedup_step_sublist l []
    rw [dedupFirst, hs]
    simpa using hsub
  · intro x
    rw [dedupFirst, dedup_step_mem]
    simp

/-- C4. Category resolution applies the four strategies in order (exact
case-insensitive equality, equality after conjunction normalisation in
either direction, substring containment of the name or a normalised
variant inside a candidate name, containment of a significant word with
stop-words and words of length at most two discarded), stopping at the
first success per name; an unmatched name contributes nothing, and the
final id list is the input match list with duplicates removed preserving
first-occurrence order; in particular Arts and-ampersand Culture resolves
against a taxonomy containing Arts and Culture through strategy two when
no exact match exists. -/
theorem claim_C4_theorem :
    (∀ cats names, getCategoryIds cats names
      = dedupFirst (names.filterMap (matchCategory cats)))
  ∧ (∀ cats names name, matchCategory cats name = none →
      getCategoryIds cats (names ++ [name]) = getCategoryIds cats names)
  ∧ (∀ l, (dedupFirst l).Nodup ∧ (dedupFirst l).Sublist l ∧
      (∀ x, x ∈ dedupFirst l ↔ x ∈ l))
  ∧ (∀ cats name c, cats.find? (catExact (pyStrip name)) = some c →
      matchCategory cats name = some c.id)
  ∧ (∀ cats name c, cats.find? (catExact (pyStrip name)) = none →
      cats.find? (catStd (replaceAll (pyStrip name) "&" "and")
        (replaceAll (pyStrip name) " and " " & ")) = some c →
      matchCategory cats name = some c.id)
  ∧ (∀ cats name c, cats.find? (catExact (pyStrip name)) = none →
      cats.find? (catStd (replaceAll (pyStrip name) "&" "and")
        (replaceAll (pyStrip name) " and " " & ")) = none →
      cats.find? (catSub (pyStrip name) (replaceAll (pyStrip name) "&" "and")
        (replaceAll (pyStrip name) " and " " & ")) = some c →
      matchCategory cats name = some c.id)
  ∧ (∀ cats name, cats.find? (catExact (pyStrip name)) = none →
      cats.find? (catStd (replaceAll (pyStrip name) "&" "and")
        (replaceAll (pyStrip name) " and " " & ")) = none →
      cats.find? (catSub (pyStrip name) (replaceAll (pyStrip name) "&" "and")
        (replaceAll (pyStrip name) " and " " & ")) = none →
      matchCategory cats name = firstWordMatch cats (significantWords (pyStrip name)))
  ∧ ([⟨"Arts and Culture", 7⟩] : List WpCategory).find?
      (catExact (pyStrip "Arts & Culture")) = none
  ∧ ([⟨"Arts and Culture", 7⟩] : List WpCategory).find?
      (catStd (replaceAll (pyStrip "Arts & Culture") "&" "and")
        (replaceAll (pyStrip "Arts & Culture") " and " " & "))
      = some ⟨"Arts and Culture", 7⟩
  ∧ matchCategory [⟨"Arts and Culture", 7⟩] "Arts & Culture" = some 7 := by
  refine ⟨?_, ?_, ?_, ?_, ?_, ?_, ?_, ?_, ?_, ?_⟩
  · intro cats names
    rfl
  · intro cats names name h
    unfold getCategoryIds
    rw [List.filterMap_append]
    simp [h]
  · exact dedupFirst_spec
  · intro cats name c h
    unfold matchCategory
    simp only [h]
  · intro cats name c h1 h2
    unfold matchCategory
    simp only [h1, h2]
  · intro cats name c h1 h2 h3
    unfold matchCategory
    simp only [h1, h2, h3]
  · intro cats name h1 h2 h3
    unfold matchCategory
    simp only [h1, h2, h3]
  · decide
  · decide
  · decide

/-- C4 witness: the strategy-two path applied to the concrete Arts and
Culture taxonomy, and the unmatched-name conjunct applied to a name with
no match at all. -/
theorem claim_C4_witness :
    matchCategory [⟨"Arts and Culture", 7⟩] "Arts & Culture" = some 7
  ∧ getCategoryIds [⟨"Arts and Culture", 7⟩] ["Arts & Culture", "Quux"]
      = getCategoryIds [⟨"Arts and Culture", 7⟩] ["Arts & Culture"] := by
  constructor
  · exact claim_C4_theorem.2.2.2.2.1 [⟨"Arts and Culture", 7⟩] "Arts & Culture"
      ⟨"Arts and Culture", 7⟩ (by decide) (by decide)
  · exact claim_C4_theorem.2.1 [⟨"Arts and Culture", 7⟩] ["Arts & Culture"] "Quux"
      (by decide)

/-! ## Author resolution lemmas -/

theorem dropWhile_append_stop (p : Char → Bool) (c : Char) (hc : p c = false) :
    ∀ (x y : List Char), List.dropWhile p (x ++ c :: y) = x.dropWhile p ++ c :: y := by
  intro x y
  induction x with
  | nil => simp [List.dropWhile_cons, hc]
  | cons a t ih =>
    by_cases ha : p a = true
    · simp only [List.cons_append, List.dropWhile_cons, ha, if_true, ih]
    · rw [Bool.not_eq_true] at ha
      simp [List.dropWhile_cons, ha]

theorem lstripL_append_comma (a b : List Char) :
    lstripL (a ++ ',' :: b) = lstripL a ++ ',' :: b :=
  dropWhile_append_stop pyIsSpace ',' (by decide) a b

theorem rstripL_append_comma (x b : List Char) :
    rstripL (x ++ ',' :: b) = x ++ ',' :: rstripL b := by
  unfold rstripL
  rw [List.reverse_append, List.reverse_cons, List.append_assoc,
    List.singleton_append,
    dropWhile_append_stop pyIsSpace ',' (by decide) b.reverse,
    List.reverse_append]
  simp

theorem stripL_append_comma (a b : List Char) :
    stripL (a ++ ',' :: b) = lstripL a ++ ',' :: rstripL b := by
  unfold stripL
  rw [lstripL_append_comma, rstripL_append_comma]

theorem mem_lstripL (l : List Char) (c : Char) (h : c ∈ lstripL l) : c ∈ l :=
  (List.dropWhile_sublist pyIsSpace).mem h

theorem mem_stripL (l : List Char) (c : Char) (h : c ∈ stripL l) : c ∈ l :=
  (stripL_sublist l).mem h

theorem splitCommaL_ne_nil : ∀ l : List Char, splitCommaL l ≠ [] := by
  intro l
  cases l with
  | nil => simp [splitCommaL]
  | cons c t =>
    rw [splitCommaL]
    by_cases hc : c = ','
    · simp [hc]
    · rw [if_neg hc]
      cases h : splitCommaL t with
      | nil => exact absurd h (splitCommaL_ne_nil t)
      | cons a r => simp

theorem splitCommaL_no_comma : ∀ l : List Char, ',' ∉ l → splitCommaL l = [l] := by
  intro l
  induction l with
  | nil => intro _; rfl
  | cons c t ih =>
    intro h
    have hc : ¬c = ',' := fun hx => h (by rw [hx]; simp)
    rw [splitCommaL, if_neg hc, ih (fun hx => h (List.mem_cons_of_mem c hx))]

theorem splitCommaL_append_comma :
    ∀ (a b : List Char), ',' ∉ a → splitCommaL (a ++ ',' :: b) = a :: splitCommaL b := by
  intro a
  induction a with
  | nil => intro b _; simp [splitCommaL]
  | cons c t ih =>
    intro b h
    have hc : ¬c = ',' := fun hx => h (by rw [hx]; simp)
    rw [List.cons_append, splitCommaL, if_neg hc,
      ih b (fun hx => h (List.mem_cons_of_mem c hx))]

theorem primaryAuthor_no_comma (name : String) (h : ',' ∉ name.data) :
    primaryAuthor name = ⟨stripL name.data⟩ := by
  unfold primaryAuthor
  have h2 : ',' ∉ (pyStrip name).data := fun hx => h (mem_stripL name.data ',' hx)
  rw [splitCommaL_no_comma _ h2]
  show pyStrip ⟨(pyStrip name).data⟩ = (⟨stripL name.data⟩ : String)
  unfold pyStrip
  exact congrArg String.mk (stripL_idem name.data)

theorem primaryAuthor_append (name rest : String) (h : ',' ∉ name.data) :
    primaryAuthor (name ++ "," ++ rest) = ⟨stripL name.data⟩ := by
  have hdata : (name ++ "," ++ rest).data = name.data ++ ',' :: rest.data := by
    rw [String.data_append, String.data_append]
    simp
  unfold primaryAuthor
  have hstrip : (pyStrip (name ++ "," ++ rest)).data
      = lstripL name.data ++ ',' :: rstripL rest.data := by
    show stripL (name ++ "," ++ rest).data = _
    rw [hdata, stripL_append_comma]
  rw [hstrip]
  have h2 : ',' ∉ lstripL name.data := fun hx => h (mem_lstripL name.data ',' hx)
  rw [splitCommaL_append_comma _ _ h2]
  show pyStrip ⟨lstripL name.data⟩ = (⟨stripL name.data⟩ : String)
  unfold pyStrip stripL
  exact congrArg String.mk (congrArg rstripL (lstripL_idem name.data))

/-- C5. Only the first comma-separated token of the author string is
resolved (appending co-authors after a comma never changes the outcome);
among search results the first exact case-insensitive full-name match is
returned, and only with no exact match the first fuzzy result; with no
search results the resolution falls through to account creation, which
returns none exactly when the stripped name has fewer than two
whitespace-separated tokens and otherwise generates the username
first.last in lowercase with internal spaces removed. -/
theorem claim_C5_theorem :
    (∀ users name rest, ',' ∉ name.data →
      resolveAuthor users (name ++ "," ++ rest) = resolveAuthor users name)
  ∧ (∀ users primary c,
      users.find? (fun u => lowerStr u.name == lowerStr primary) = some c →
      resolveFromSearch users primary = some c.id)
  ∧ (∀ u0 us primary,
      (u0 :: us).find? (fun u => lowerStr u.name == lowerStr primary) = none →
      resolveFromSearch (u0 :: us) primary = some u0.id)
  ∧ (∀ name req, createWordpressUser (primaryAuthor name) = some req →
      resolveAuthor [] name = .create req)
  ∧ (∀ name, createWordpressUser (primaryAuthor name) = none →
      resolveAuthor [] name = .failed)
  ∧ (∀ name, (pySplitWs (pyStrip name)).length < 2 → createWordpressUser name = none)
  ∧ (∀ name first w ws, pySplitWs (pyStrip name) = first :: w :: ws →
      createWordpressUser name = some ⟨lowerStr first ++ "." ++
        removeSpaces (lowerStr (joinSpace (w :: ws))), first, joinSpace (w :: ws)⟩) := by
  refine ⟨?_, ?_, ?_, ?_, ?_, ?_, ?_⟩
  · intro users name rest h
    unfold resolveAuthor
    rw [primaryAuthor_append name rest h, primaryAuthor_no_comma name h]
  · intro users primary c h
    cases users with
    | nil => rw [List.find?] at h; exact absurd h (by simp)
    | cons u0 us =>
      unfold resolveFromSearch
      rw [h]
  · intro u0 us primary h
    unfold resolveFromSearch
    rw [h]
  · intro name req h
    unfold resolveAuthor resolveFromSearch
    simp only [h]
  · intro name h
    unfold resolveAuthor resolveFromSearch
    simp only [h]
  · intro name hlen
    unfold createWordpressUser
    cases hs : pySplitWs (pyStrip name) with
    | nil => rfl
    | cons a r =>
      cases r with
      | nil => rfl
      | cons b r2 =>
        rw [hs] at hlen
        simp at hlen
        omega
  · intro name first w ws h
    unfold createWordpressUser
    rw [h]

/-- C5 witness: the comma conjunct, the exact-match preference, the fuzzy
fallback, the too-short-name failure and the username formula, each at a
concrete input. -/
theorem claim_C5_witness :
    resolveAuthor [] ("Jane Doe" ++ "," ++ " Bob Smith") = resolveAuthor [] "Jane Doe"
  ∧ resolveFromSearch [⟨"jane doe", 5⟩, ⟨"Jane Doe", 9⟩] "Jane Doe" = some 5
  ∧ resolveFromSearch [⟨"Janet Doeson", 3⟩] "Jane Doe" = some 3
  ∧ createWordpressUser "Cher" = none
  ∧ createWordpressUser "Jane  van Dyke"
      = some ⟨"jane.vandyke", "Jane", "van Dyke"⟩ := by
  refine ⟨?_, ?_, ?_, ?_, ?_⟩
  · exact claim_C5_theorem.1 [] "Jane Doe" " Bob Smith" (by decide)
  · exact claim_C5_theorem.2.1 [⟨"jane doe", 5⟩, ⟨"Jane Doe", 9⟩] "Jane Doe"
      ⟨"jane doe", 5⟩ (by decide)
  · exact claim_C5_theorem.2.2.1 ⟨"Janet Doeson", 3⟩ [] "Jane Doe" (by decide)
  · exact claim_C5_theorem.2.2.2.2.2.1 "Cher" (by decide)
  · have := claim_C5_theorem.2.2.2.2.2.2 "Jane  van Dyke" "Jane" "van" ["Dyke"]
      (by decide)
    rw [this]
    rfl

/-! ## Cutline parsing lemmas -/

theorem contains_eq_false (l : List Char) (c : Char) (h : c ∉ l) :
    l.contains c = false := by
  by_contra hc
  rw [Bool.not_eq_false] at hc
  exact h (List.elem_iff.mp hc)

theorem getLast?_append_right (l1 l2 : List Char) (h : l2 ≠ []) :
    (l1 ++ l2).getLast? = l2.getLast? := by
  rw [List.getLast?_append]
  cases hl : l2.getLast? with
  | none => exact absurd (List.getLast?_eq_none_iff.mp hl) h
  | some c => rfl

theorem acc_ne_append (acc : List CutlineEntry) (e : CutlineEntry) :
    acc ≠ acc ++ [e] := by
  intro h
  have := congrArg List.length h
  simp at this

theorem head_eq_star (l : List Char) (h : (l.head? == some '*') = true) :
    l = '*' :: l.tail := by
  cases l with
  | nil => simp at h
  | cons a t =>
    simp only [List.head?_cons, beq_iff_eq, Option.some.injEq] at h
    rw [h]
    rfl

theorem cutlineStep_entry (cat : String) (acc : List CutlineEntry) (line : String)
    (e : CutlineEntry) (hwf : stripL line.data = line.data) (hne : line.data ≠ [])
    (h : (cutlineStep (cat, acc) line).2 = acc ++ [e]) :
    e.category = cat ∧
      ∃ p q, e.original.data = p ++ ':' :: q ∧ ':' ∉ p ∧ e.slug = ⟨stripL p⟩ ∧
        stripL q ≠ [] ∧ e.cutline = ⟨(extractCredit (stripL q)).1⟩ ∧
        e.photo_credit = (extractCredit (stripL q)).2.map (fun c => (⟨c⟩ : String)) ∧
        (e.original = line ∨ (line.data.head? = some '*' ∧
          e.original.data = stripL (line.data.drop 1))) := by
  unfold cutlineStep at h
  by_cases h1 : (lowerStr line == "cutlines") = true
  · rw [if_pos h1] at h
    exact absurd h (acc_ne_append acc e)
  rw [if_neg h1] at h
  by_cases h2 : (endsWithChar ':' line.data && !line.data.dropLast.contains ':') = true
  · rw [if_pos h2] at h
    exact absurd h (acc_ne_append acc e)
  rw [if_neg h2] at h
  by_cases h3 : line.data.isEmpty = true
  · rw [if_pos h3] at h
    exact absurd h (acc_ne_append acc e)
  rw [if_neg h3] at h
  by_cases h4 : line.data.contains ':' = true
  case neg =>
    rw [if_neg h4] at h
    exact absurd h (acc_ne_append acc e)
  rw [if_pos h4] at h
  cases hsp : splitFirstChar ':' (bulletStrip line.data) with
  | none =>
    simp only [hsp] at h
    exact absurd h (acc_ne_append acc e)
  | some pq =>
    obtain ⟨p, q⟩ := pq
    simp only [hsp] at h
    have he : e = mkCutline cat (bulletStrip line.data) p q := by
      have := List.append_cancel_left h
      simpa using this.symm
    subst he
    obtain ⟨hdec, hnp⟩ := splitFirstChar_spec ':' (bulletStrip line.data) p q hsp
    have hltrim : stripL (bulletStrip line.data) = bulletStrip line.data := by
      unfold bulletStrip
      by_cases hstar : (line.data.head? == some '*') = true
      · rw [if_pos hstar]; exact stripL_idem _
      · rw [if_neg hstar]; exact hwf
    have hlne : bulletStrip line.data ≠ [] := by rw [hdec]; simp
    refine ⟨rfl, p, q, hdec, hnp, rfl, ?_, rfl, rfl, ?_⟩
    · intro hq
      cases hqe : q with
      | cons c0 q' =>
        have hqne : q ≠ [] := by rw [hqe]; simp
        have hall := stripL_nil_allspace q hq
        have h5 : (bulletStrip line.data).getLast? = q.getLast? := by
          rw [hdec, show p ++ ':' :: q = (p ++ [':']) ++ q by simp]
          exact getLast?_append_right _ q hqne
        obtain ⟨c, hc1, hc2⟩ := stripL_eq_self_last _ hltrim hlne
        rw [h5] at hc1
        rw [hall c (List.mem_of_mem_getLast? hc1)] at hc2
        simp at hc2
      | nil =>
        apply h2
        rw [hqe] at hdec
        by_cases hstar : (line.data.head? == some '*') = true
        · have hline : line.data = '*' :: line.data.tail := head_eq_star _ hstar
          have hlb : bulletStrip line.data = stripL line.data.tail := by
            rw [bulletStrip, if_pos hstar, List.drop_one]
          obtain ⟨w, z, hrw, hw, hz⟩ := stripL_decomp line.data.tail
          have hzn : z = [] := by
            by_contra hzn
            have h6 : line.data.getLast? = z.getLast? := by
              conv_lhs => rw [hline, hrw]
              rw [show '*' :: (w ++ stripL line.data.tail ++ z)
                  = ('*' :: (w ++ stripL line.data.tail)) ++ z by simp]
              exact getLast?_append_right _ z hzn
            obtain ⟨c, hc1, hc2⟩ := stripL_eq_self_last _ hwf hne
            rw [h6] at hc1
            rw [hz c (List.mem_of_mem_getLast? hc1)] at hc2
            simp at hc2
          have hshape : line.data = ('*' :: (w ++ p)) ++ [':'] := by
            conv_lhs => rw [hline, hrw]
            rw [hzn, ← hlb, hdec]
            simp
          rw [Bool.and_eq_true]
          constructor
          · rw [endsWithChar, hshape, List.getLast?_concat]
            simp
          · rw [hshape, List.dropLast_concat]
            have hmem : ':' ∉ '*' :: (w ++ p) := by
              intro hmem
              rcases List.mem_cons.mp hmem with hx | hx
              · simp at hx
              · rcases List.mem_append.mp hx with hx | hx
                · exact absurd (hw ':' hx) (by decide)
                · exact hnp hx
            rw [contains_eq_false _ _ hmem]
            rfl
        · have hlb : bulletStrip line.data = line.data := by
            rw [bulletStrip, if_neg hstar]
          rw [hlb] at hdec
          rw [Bool.and_eq_true]
          constructor
          · rw [endsWithChar, hdec, show p ++ [':'] = p ++ [':'] from rfl,
              List.getLast?_concat]
            simp
          · rw [hdec, List.dropLast_concat]
            rw [contains_eq_false _ _ hnp]
            rfl
    · by_cases hstar : (line.data.head? == some '*') = true
      · refine Or.inr ⟨by simpa using hstar, ?_⟩
        show bulletStrip line.data = stripL (line.data.drop 1)
        rw [bulletStrip, if_pos hstar]
      · refine Or.inl ?_
        show (⟨bulletStrip line.data⟩ : String) = line
        rw [bulletStrip, if_neg hstar]

theorem cutlineStep_no_colon (cat : String) (acc : List CutlineEntry) (line : String)
    (h : line.data.contains ':' = false) :
    (cutlineStep (cat, acc) line).2 = acc := by
  unfold cutlineStep
  by_cases h1 : (lowerStr line == "cutlines") = true
  · rw [if_pos h1]
  · rw [if_neg h1]
    by_cases h2 : (endsWithChar ':' line.data && !line.data.dropLast.contains ':') = true
    · rw [if_pos h2]
    · rw [if_neg h2]
      by_cases h3 : line.data.isEmpty = true
      · rw [if_pos h3]
      · rw [if_neg h3, if_neg (by rw [h]; simp)]

theorem cutlineStep_category (cat : String) (acc : List CutlineEntry) (line : String)
    (h1 : (lowerStr line == "cutlines") = false)
    (h2 : endsWithChar ':' line.data = true)
    (h3 : line.data.dropLast.contains ':' = false) :
    cutlineStep (cat, acc) line = (rstripColons line, acc) := by
  unfold cutlineStep
  rw [if_neg (by rw [h1]; simp), if_pos (by rw [h2, h3]; rfl)]

/-- C6 (amended). A cutline line of the form identifier colon text has a
leading asterisk bullet stripped and a trailing clause introduced by the
case-sensitive marker PHOTO CREDIT removed into the separate credit field
(after stripping one optional leading colon); because PHOTO CREDIT is a
prefix of PHOTO CREDITS, a PHOTO CREDITS clause is split at PHOTO CREDIT
and the stored credit keeps the stray leading S and colon; the text
between the first colon and the credit marker is non-empty after trimming,
but the stored identifier may be empty (line starting with a colon) and
the stored cutline may be empty (text that is exactly a credit clause);
lines without a colon and category-marker lines never become options; the
line asterisk jdoe colon Player smiles PHOTO CREDIT colon J. Smith yields
slug jdoe, cutline Player smiles and credit J. Smith. -/
theorem claim_C6_theorem :
    (∀ cat acc line e, stripL line.data = line.data → line.data ≠ [] →
      (cutlineStep (cat, acc) line).2 = acc ++ [e] →
      e.category = cat ∧
        ∃ p q, e.original.data = p ++ ':' :: q ∧ ':' ∉ p ∧ e.slug = ⟨stripL p⟩ ∧
          stripL q ≠ [] ∧ e.cutline = ⟨(extractCredit (stripL q)).1⟩ ∧
          e.photo_credit = (extractCredit (stripL q)).2.map (fun c => (⟨c⟩ : String)) ∧
          (e.original = line ∨ (line.data.head? = some '*' ∧
            e.original.data = stripL (line.data.drop 1))))
  ∧ (∀ t, containsL "PHOTO CREDIT".data t = false → extractCredit t = (t, none))
  ∧ (∀ t pre post, splitMarker "PHOTO CREDIT".data t = some (pre, post) →
      t = pre ++ "PHOTO CREDIT".data ++ post ∧
        containsL "PHOTO CREDIT".data pre = false ∧
        extractCredit t = (stripL pre, some (creditClean post)))
  ∧ (∀ t, containsL "PHOTO CREDITS".data t = true →
      containsL "PHOTO CREDIT".data t = true)
  ∧ (∀ cat acc line, line.data.contains ':' = false →
      (cutlineStep (cat, acc) line).2 = acc)
  ∧ (∀ cat acc line, (lowerStr line == "cutlines") = false →
      endsWithChar ':' line.data = true →
      line.data.dropLast.contains ':' = false →
      cutlineStep (cat, acc) line = (rstripColons line, acc))
  ∧ processCutlineTab ["Cutlines", "*jdoe: Player smiles PHOTO CREDIT: J. Smith"]
      = [⟨"jdoe", "Player smiles", some "J. Smith", "Uncategorized",
          "jdoe: Player smiles PHOTO CREDIT: J. Smith"⟩]
  ∧ processCutlineTab ["Cutlines", "jdoe: Pic PHOTO CREDITS: J. Smith"]
      = [⟨"jdoe", "Pic", some "S: J. Smith", "Uncategorized",
          "jdoe: Pic PHOTO CREDITS: J. Smith"⟩] := by
  refine ⟨cutlineStep_entry, ?_, ?_, ?_, cutlineStep_no_colon, cutlineStep_category,
    by decide, by decide⟩
  · intro t hcon
    have hm1 : splitMarker "PHOTO CREDIT".data t = none := by
      have := containsL_eq_isSome "PHOTO CREDIT".data (by decide) t
      rw [hcon] at this
      cases hs : splitMarker "PHOTO CREDIT".data t with
      | none => rfl
      | some pq => rw [hs] at this; simp at this
    have hcon2 : containsL "PHOTO CREDITS".data t = false := by
      by_contra hc
      rw [Bool.not_eq_false] at hc
      rw [containsL_mono "PHOTO CREDIT".data "PHOTO CREDITS".data (by decide) t hc]
        at hcon
      simp at hcon
    have hm2 : splitMarker "PHOTO CREDITS".data t = none := by
      have := containsL_eq_isSome "PHOTO CREDITS".data (by decide) t
      rw [hcon2] at this
      cases hs : splitMarker "PHOTO CREDITS".data t with
      | none => rfl
      | some pq => rw [hs] at this; simp at this
    unfold extractCredit
    rw [hm1, hm2]
  · intro t pre post h
    obtain ⟨hdec, hnp⟩ := splitMarker_spec "PHOTO CREDIT".data (by decide) t pre post h
    refine ⟨hdec, hnp, ?_⟩
    unfold extractCredit
    rw [h]
  · exact fun t => containsL_mono "PHOTO CREDIT".data "PHOTO CREDITS".data (by decide) t

/-- C6 counterexample: a cutline line beginning with its colon produces an
option whose identifier is empty, and its PHOTO CREDITS clause is stored
with a stray leading S and colon, contradicting the non-empty-identifier
invariant of the claim. -/
theorem claim_C6_counterexample :
    processCutlineTab ["Cutlines", ": Pic PHOTO CREDITS: J. Smith"]
      = [⟨"", "Pic", some "S: J. Smith", "Uncategorized",
          ": Pic PHOTO CREDITS: J. Smith"⟩]
  ∧ (⟨"", "Pic", some "S: J. Smith", "Uncategorized",
      ": Pic PHOTO CREDITS: J. Smith"⟩ : CutlineEntry).slug.data = [] := by
  exact ⟨by decide, rfl⟩

/-- C6 witness: the per-line theorem applied to the concrete example line,
and the no-marker credit conjunct applied to a markerless text. -/
theorem claim_C6_witness :
    (∀ e, (cutlineStep ("NEWS", [])
        "*jdoe: Player smiles PHOTO CREDIT: J. Smith").2 = [] ++ [e] →
      e.category = "NEWS")
  ∧ extractCredit "Player smiles".data = ("Player smiles".data, none) := by
  constructor
  · intro e he
    exact (claim_C6_theorem.1 "NEWS" [] "*jdoe: Player smiles PHOTO CREDIT: J. Smith"
      e (by decide) (by decide) he).1
  · exact claim_C6_theorem.2.1 "Player smiles".data (by decide)

/-! ## Tab selection and fallback lemmas -/

theorem headlineStep_found (st : HLState) (line : String) :
    (headlineStep st line).found = (st.found || (lowerStr line == "headlines")) := by
  unfold headlineStep
  by_cases hi : (lowerStr line == "insides") = true
  · rw [if_pos hi]
    have hh : (lowerStr line == "headlines") = false := by
      rw [beq_iff_eq] at hi
      rw [hi]
      decide
    rw [hh, Bool.or_false]
  · rw [if_neg hi]
    by_cases hh : (lowerStr line == "headlines") = true
    · rw [if_pos hh, hh, Bool.or_true]
    · rw [if_neg hh]
      rw [Bool.not_eq_true] at hh
      rw [hh, Bool.or_false]
      by_cases h3 : (!st.inInsides && (st.inHeadlines || st.pastInsides)) = true
      · rw [if_pos h3]
        by_cases h4 : endsWithChar ':' line.data = true
        · rw [if_pos h4]
        · rw [if_neg h4]
          by_cases h5 : (line.data.isEmpty || !line.data.contains ':') = true
          · rw [if_pos h5]
          · rw [if_neg h5]
            cases splitFirstChar ':' line.data with
            | none => rfl
            | some pq => rfl
      · rw [if_neg h3]

theorem headlineStep_insides (st : HLState) (line : String) :
    (headlineStep st line).insidesFound
      = (st.insidesFound || (lowerStr line == "insides")) := by
  unfold headlineStep
  by_cases hi : (lowerStr line == "insides") = true
  · rw [if_pos hi, hi, Bool.or_true]
  · rw [if_neg hi]
    rw [Bool.not_eq_true] at hi
    rw [hi, Bool.or_false]
    by_cases hh : (lowerStr line == "headlines") = true
    · rw [if_pos hh]
    · rw [if_neg hh]
      by_cases h3 : (!st.inInsides && (st.inHeadlines || st.pastInsides)) = true
      · rw [if_pos h3]
        by_cases h4 : endsWithChar ':' line.data = true
        · rw [if_pos h4]
        · rw [if_neg h4]
          by_cases h5 : (line.data.isEmpty || !line.data.contains ':') = true
          · rw [if_pos h5]
          · rw [if_neg h5]
            cases splitFirstChar ':' line.data with
            | none => rfl
            | some pq => rfl
      · rw [if_neg h3]

theorem foldl_headlineStep_found (lines : List String) :
    ∀ st : HLState, (lines.foldl headlineStep st).found
      = (st.found || lines.any (fun l => lowerStr l == "headlines")) := by
  induction lines with
  | nil => intro st; simp
  | cons l ls ih =>
    intro st
    rw [List.foldl_cons, ih, headlineStep_found]
    simp [Bool.or_assoc]

theorem foldl_headlineStep_insides (lines : List String) :
    ∀ st : HLState, (lines.foldl headlineStep st).insidesFound
      = (st.insidesFound || lines.any (fun l => lowerStr l == "insides")) := by
  induction lines with
  | nil => intro st; simp
  | cons l ls ih =>
    intro st
    rw [List.foldl_cons, ih, headlineStep_insides]
    simp [Bool.or_assoc]

theorem scanHeadlineTabs_found (tabs : List (List String)) :
    ∀ f i e, (scanHeadlineTabs f i e tabs).found
      = (f || tabs.any (fun t => t.any (fun l => lowerStr l == "headlines"))) := by
  induction tabs with
  | nil => intro f i e; simp [scanHeadlineTabs]
  | cons t rest ih =>
    intro f i e
    rw [scanHeadlineTabs]
    by_cases hm : hlTabMarker t = true
    · rw [if_neg (by simp [hm])]
      set st := t.foldl headlineStep
        { category := "Uncategorized", inInsides := false, pastInsides := false,
          inHeadlines := false, found := f, insidesFound := i, entries := e } with hstdef
      have hst : st.found = (f || t.any fun l => lowerStr l == "headlines") :=
        foldl_headlineStep_found t _
      by_cases hf2 : st.found = true
      · rw [if_pos hf2]
        show st.found = _
        rw [List.any_cons, hst]
        rw [hst] at hf2
        cases f <;> simp_all
      · rw [if_neg hf2, ih]
        rw [List.any_cons, hst, Bool.or_assoc]
    · rw [if_pos (by simp [hm]), ih, List.any_cons]
      have : t.any (fun l => lowerStr l == "headlines") = false := by
        unfold hlTabMarker at hm
        rw [Bool.not_eq_true, Bool.or_eq_false_iff] at hm
        exact hm.1
      rw [this, Bool.false_or]

theorem scanHeadlineTabs_insides (tabs : List (List String)) :
    ∀ f i e, (scanHeadlineTabs f i e tabs).found = false →
      (scanHeadlineTabs f i e tabs).insidesFound
        = (i || tabs.any (fun t => t.any (fun l => lowerStr l == "insides"))) := by
  induction tabs with
  | nil => intro f i e _; simp [scanHeadlineTabs]
  | cons t rest ih =>
    intro f i e hfound
    rw [scanHeadlineTabs] at hfound ⊢
    by_cases hm : hlTabMarker t = true
    · rw [if_neg (by simp [hm])] at hfound ⊢
      set st := t.foldl headlineStep
        { category := "Uncategorized", inInsides := false, pastInsides := false,
          inHeadlines := false, found := f, insidesFound := i, entries := e } with hstdef
      have hsti : st.insidesFound = (i || t.any fun l => lowerStr l == "insides") :=
        foldl_headlineStep_insides t _
      by_cases hf2 : st.found = true
      · rw [if_pos hf2] at hfound
        have : st.found = false := hfound
        rw [this] at hf2
        simp at hf2
      · rw [if_neg hf2] at hfound ⊢
        rw [ih _ _ _ hfound]
        rw [List.any_cons, hsti, Bool.or_assoc]
    · rw [if_pos (by simp [hm])] at hfound ⊢
      rw [ih _ _ _ hfound, List.any_cons]
      have : t.any (fun l => lowerStr l == "insides") = false := by
        unfold hlTabMarker at hm
        rw [Bool.not_eq_true, Bool.or_eq_false_iff] at hm
        exact hm.2
      rw [this, Bool.false_or]

theorem hlFallbackUsed_iff (tabs : List (List String)) :
    hlFallbackUsed tabs = true ↔
      (∀ t ∈ tabs, ∀ l ∈ t, lowerStr l ≠ "headlines" ∧ lowerStr l ≠ "insides") := by
  unfold hlFallbackUsed
  rw [Bool.and_eq_true, Bool.not_eq_true', Bool.not_eq_true']
  constructor
  · rintro ⟨hf, hi⟩
    have hf2 := hf
    rw [scanHeadlineTabs_found] at hf2
    rw [Bool.false_or, List.any_eq_false] at hf2
    have hi2 := scanHeadlineTabs_insides tabs false false [] hf
    rw [hi] at hi2
    rw [Bool.false_or] at hi2
    have hi3 : tabs.any (fun t => t.any (fun l => lowerStr l == "insides")) = false :=
      hi2.symm
    rw [List.any_eq_false] at hi3
    intro t ht l hl
    constructor
    · have h5 := hf2 t ht
      rw [Bool.not_eq_true, List.any_eq_false] at h5
      have h6 := h5 l hl
      simpa using h6
    · have h5 := hi3 t ht
      rw [Bool.not_eq_true, List.any_eq_false] at h5
      have h6 := h5 l hl
      simpa using h6
  · intro h
    have hf : (scanHeadlineTabs false false [] tabs).found = false := by
      rw [scanHeadlineTabs_found, Bool.false_or, List.any_eq_false]
      intro t ht
      rw [Bool.not_eq_true, List.any_eq_false]
      intro l hl
      simp [(h t ht l hl).1]
    refine ⟨hf, ?_⟩
    rw [scanHeadlineTabs_insides tabs false false [] hf, Bool.false_or,
      List.any_eq_false]
    intro t ht
    rw [Bool.not_eq_true, List.any_eq_false]
    intro l hl
    simp [(h t ht l hl).2]

theorem scanHeadlineTabs_first_tab :
    ∀ (pre : List (List String)) (f i : Bool) (e : List HeadlineEntry)
      (t : List String) (post : List (List String)),
      (∀ t' ∈ pre, t'.any (fun l => lowerStr l == "headlines") = false) →
      t.any (fun l => lowerStr l == "headlines") = true →
      scanHeadlineTabs f i e (pre ++ t :: post) = scanHeadlineTabs f i e (pre ++ [t]) := by
  intro pre
  induction pre with
  | nil =>
    intro f i e t post _ ht
    have hm : hlTabMarker t = true := by
      unfold hlTabMarker
      rw [ht, Bool.true_or]
    have hnm : ¬((!hlTabMarker t) = true) := by simp [hm]
    rw [List.nil_append, List.nil_append, scanHeadlineTabs, scanHeadlineTabs,
      if_neg hnm, if_neg hnm]
    set st := t.foldl headlineStep
      { category := "Uncategorized", inInsides := false, pastInsides := false,
        inHeadlines := false, found := f, insidesFound := i, entries := e } with hstdef
    have hf2 : st.found = true := by
      have h7 : st.found = (f || t.any fun l => lowerStr l == "headlines") :=
        foldl_headlineStep_found t _
      rw [h7, ht, Bool.or_true]
    rw [if_pos hf2, if_pos hf2]
  | cons p pre ih =>
    intro f i e t post hpre ht
    have hp : p.any (fun l => lowerStr l == "headlines") = false :=
      hpre p (by simp)
    rw [List.cons_append, List.cons_append, scanHeadlineTabs, scanHeadlineTabs]
    by_cases hm : hlTabMarker p = true
    · have hnm : ¬((!hlTabMarker p) = true) := by simp [hm]
      rw [if_neg hnm, if_neg hnm]
      set st := p.foldl headlineStep
        { category := "Uncategorized", inInsides := false, pastInsides := false,
          inHeadlines := false, found := f, insidesFound := i, entries := e } with hstdef
      by_cases hf2 : st.found = true
      · rw [if_pos hf2, if_pos hf2]
      · rw [if_neg hf2, if_neg hf2]
        exact ih _ _ _ t post (fun q hq => hpre q (by simp [hq])) ht
    · have hnm : (!hlTabMarker p) = true := by simp [hm]
      rw [if_pos hnm, if_pos hnm]
      exact ih _ _ _ t post (fun q hq => hpre q (by simp [hq])) ht

theorem find?_append_first {α : Type} (p : α → Bool) :
    ∀ (pre : List α) (t : α) (post : List α),
      (∀ x ∈ pre, p x = false) → p t = true →
      List.find? p (pre ++ t :: post) = some t := by
  intro pre
  induction pre with
  | nil =>
    intro t post _ ht
    rw [List.nil_append, List.find?]
    rw [ht]
  | cons a pre ih =>
    intro t post hpre ht
    rw [List.cons_append, List.find?]
    rw [hpre a (by simp)]
    exact ih t post (fun x hx => hpre x (by simp [hx])) ht

/-- C7 (amended). In tab mode, the headline parser reaches its literal
NEWS: fallback exactly when no Headlines and no Insides marker line occurs
in any tab, and the cutline parser reaches its NEWS: fallback exactly when
no Cutlines marker line occurs in any tab (an Insides or Headlines marker
does not block the cutline fallback); when the fallback runs it processes
the first tab containing a literal NEWS: line from the line after the
marker with category NEWS; the first tab containing the parser's own
section marker supplies the entries and the tabs after it are never
searched. -/
theorem claim_C7_theorem :
    (∀ tabs, hlFallbackUsed tabs = true ↔
      (∀ t ∈ tabs, ∀ l ∈ t, lowerStr l ≠ "headlines" ∧ lowerStr l ≠ "insides"))
  ∧ (∀ tabs, hlFallbackUsed tabs = true →
      parseHeadlinesTabs tabs = (match headlinesNewsFallback tabs with
        | some entries => entries
        | none => []))
  ∧ (∀ tabs : List (List String), tabs.find? hasCutlinesMarker = none ↔
      (∀ t ∈ tabs, ∀ l ∈ t, lowerStr l ≠ "cutlines"))
  ∧ (∀ tabs t, tabs.find? hasCutlinesMarker = some t →
      parseCutlinesTabs tabs = processCutlineTab t)
  ∧ (∀ tabs t, tabs.find? hasCutlinesMarker = none →
      tabs.find? (fun t => t.contains "NEWS:") = some t →
      parseCutlinesTabs tabs
        = (((afterNews t).getD []).foldl newsCutlineStep ("NEWS", [])).2)
  ∧ (∀ pre t post, (∀ t' ∈ pre, t'.any (fun l => lowerStr l == "headlines") = false) →
      t.any (fun l => lowerStr l == "headlines") = true →
      parseHeadlinesTabs (pre ++ t :: post) = parseHeadlinesTabs (pre ++ [t]))
  ∧ (∀ pre t post, (∀ t' ∈ pre, hasCutlinesMarker t' = false) →
      hasCutlinesMarker t = true →
      parseCutlinesTabs (pre ++ t :: post) = parseCutlinesTabs (pre ++ [t])) := by
  refine ⟨hlFallbackUsed_iff, ?_, ?_, ?_, ?_, ?_, ?_⟩
  · intro tabs h
    unfold hlFallbackUsed at h
    rw [Bool.and_eq_true, Bool.not_eq_true', Bool.not_eq_true'] at h
    unfold parseHeadlinesTabs
    rw [h.1, h.2]
    rfl
  · intro tabs
    rw [List.find?_eq_none]
    constructor
    · intro h t ht l hl
      have := h t ht
      unfold hasCutlinesMarker at this
      rw [Bool.not_eq_true, List.any_eq_false] at this
      have := this l hl
      simpa using this
    · intro h t ht
      unfold hasCutlinesMarker
      rw [Bool.not_eq_true, List.any_eq_false]
      intro l hl
      simp [h t ht l hl]
  · intro tabs t h
    unfold parseCutlinesTabs
    rw [h]
  · intro tabs t h1 h2
    unfold parseCutlinesTabs
    rw [h1, h2]
  · intro pre t post hpre ht
    unfold parseHeadlinesTabs
    rw [scanHeadlineTabs_first_tab pre false false [] t post hpre ht]
    have hfound : (scanHeadlineTabs false false [] (pre ++ [t])).found = true := by
      rw [scanHeadlineTabs_found, Bool.false_or, List.any_eq_true]
      exact ⟨t, by simp, ht⟩
    rw [hfound]
    rfl
  · intro pre t post hpre ht
    unfold parseCutlinesTabs
    rw [find?_append_first hasCutlinesMarker pre t post hpre ht,
      find?_append_first hasCutlinesMarker pre t [] hpre ht]

/-- C7 counterexample: a document whose single tab contains explicit
Headlines and Insides marker lines but no Cutlines marker still activates
the cutline NEWS: fallback and yields an entry, so the fallback is not
blocked by every explicit marker of the claim. -/
theorem claim_C7_counterexample :
    ("Headlines" ∈ (["Headlines", "Insides", "NEWS:", "pic: x"] : List String))
  ∧ ("Insides" ∈ (["Headlines", "Insides", "NEWS:", "pic: x"] : List String))
  ∧ parseCutlinesTabs [["Headlines", "Insides", "NEWS:", "pic: x"]]
      = [⟨"pic", "x", none, "NEWS", "pic: x"⟩] := by
  refine ⟨by decide, by decide, by decide⟩

/-- C7 witness: the first-tab conjuncts and the cutline fallback conjunct
applied at concrete documents. -/
theorem claim_C7_witness :
    parseHeadlinesTabs ([["no markers"]] ++ ["Headlines", "a: b"] :: [["Headlines", "z: w"]])
      = parseHeadlinesTabs ([["no markers"]] ++ [["Headlines", "a: b"]])
  ∧ parseCutlinesTabs [["Cutlines", "a: b"]] = processCutlineTab ["Cutlines", "a: b"]
  ∧ parseCutlinesTabs [["Insides", "NEWS:", "pic: x"]]
      = (((afterNews ["Insides", "NEWS:", "pic: x"]).getD []).foldl
          newsCutlineStep ("NEWS", [])).2 := by
  refine ⟨?_, ?_, ?_⟩
  · exact claim_C7_theorem.2.2.2.2.2.1 [["no markers"]] ["Headlines", "a: b"]
      [["Headlines", "z: w"]] (by decide) (by decide)
  · exact claim_C7_theorem.2.2.2.1 [["Cutlines", "a: b"]] ["Cutlines", "a: b"] (by decide)
  · exact claim_C7_theorem.2.2.2.2.1 [["Insides", "NEWS:", "pic: x"]]
      ["Insides", "NEWS:", "pic: x"] (by decide) (by decide)

/-! ## Redaction selector and error containment theorems -/

/-- C8. With a scripted decision provider in place of the keystroke loop:
an empty line list (after stripping leading blanks) yields the empty
result; an entered digit string is accepted exactly when its value n
satisfies one le n le lineCount, an out-of-range digit string re-prompts;
the spacebar default-accept gesture and an empty entered input select line
4; and the produced result is the newline join of the non-empty lines from
the chosen 1-based start line to the end of the document. -/
theorem claim_C8_theorem :
    (∀ ds paras, leadingStripped paras = [] → parseRedactionLines paras ds = some "")
  ∧ (∀ (n : Nat) s rest, pyIsDigitStr s = true → 1 ≤ digitsToNat s →
      digitsToNat s ≤ n →
      selectStartLine n (.enter s :: rest) = some (digitsToNat s))
  ∧ (∀ (n : Nat) s rest, pyIsDigitStr s = true →
      (digitsToNat s = 0 ∨ n < digitsToNat s) →
      selectStartLine n (.enter s :: rest) = selectStartLine n rest)
  ∧ (∀ (n : Nat) rest, selectStartLine n (.space :: rest) = some 4)
  ∧ (∀ (n : Nat) rest, selectStartLine n (.enter "" :: rest) = some 4)
  ∧ (∀ paras ds k, leadingStripped paras ≠ [] →
      selectStartLine (leadingStripped paras).length ds = some k →
      parseRedactionLines paras ds = some (String.intercalate "\n"
        (((leadingStripped paras).drop (k - 1)).filter (fun l => !l.data.isEmpty)))) := by
  refine ⟨?_, ?_, ?_, ?_, ?_, ?_⟩
  · intro ds paras h
    unfold parseRedactionLines
    rw [h]
    rfl
  · intro n s rest h1 h2 h3
    unfold selectStartLine
    rw [if_pos (by simp [h1, h2, h3])]
  · intro n s rest h1 h2
    have hne : s.data ≠ [] := by
      unfold pyIsDigitStr at h1
      rw [Bool.and_eq_true] at h1
      simpa [List.isEmpty_iff] using h1.1
    have hsne : ¬((s == "") = true) := by
      rw [beq_iff_eq]
      intro hc
      exact hne (by rw [hc])
    have hcond : ¬((pyIsDigitStr s && decide (1 ≤ digitsToNat s) &&
        decide (digitsToNat s ≤ n)) = true) := by
      rcases h2 with h2 | h2
      · simp [h2]
      · simp only [Bool.and_eq_true, decide_eq_true_eq]
        rintro ⟨⟨_, _⟩, hle⟩
        omega
    conv_lhs => rw [selectStartLine]
    rw [if_neg hcond, if_neg hsne]
  · intro n rest
    rfl
  · intro n rest
    rfl
  · intro paras ds k h1 h2
    unfold parseRedactionLines
    rw [if_neg (by simp [List.isEmpty_iff, h1]), h2]

/-- C8 witness: the theorem applied to a concrete document and a script
that types an out-of-range number, is re-prompted, then accepts line 3,
and to the spacebar default. -/
theorem claim_C8_witness :
    parseRedactionLines [] [Decision.space] = some ""
  ∧ selectStartLine 5 [.enter "12", .enter "3"] = some 3
  ∧ selectStartLine 5 [.space] = some 4
  ∧ parseRedactionLines ["", "Title", "By line", "", "Body one", "Body two"]
      [.enter "3"] = some "Body one\nBody two" := by
  refine ⟨?_, ?_, ?_, ?_⟩
  · exact claim_C8_theorem.1 [Decision.space] [] (by decide)
  · have h1 := claim_C8_theorem.2.2.1 5 "12" [Decision.enter "3"] (by decide)
      (by decide)
    have h2 := claim_C8_theorem.2.1 5 "3" ([] : List Decision) (by decide)
      (by decide) (by decide)
    rw [h1]
    exact h2
  · exact claim_C8_theorem.2.2.2.1 5 []
  · have h3 := claim_C8_theorem.2.2.2.2.2
      ["", "Title", "By line", "", "Body one", "Body two"] [Decision.enter "3"] 3
      (by decide) (by decide)
    rw [h3]
    rfl

/-- C9. Any error raised by the per-row body is caught at that row: in the
sheet scan the failing row leaves the state unchanged and the scan of the
remaining rows proceeds as if the row were absent, with the pure row logic
being the non-raising instantiation; in the processing loop every row
yields exactly one status record, a failing row yields its partial record
marked Failed with the captured detail, and the rows before and after it
are processed unchanged. -/
theorem scanStepCaught_error (proc : ScanState → Nat × List Cell → Except String ScanState)
    (st : ScanState) (p : Nat × List Cell) (e : String)
    (h : proc st p = Except.error e) : scanStepCaught proc st p = st := by
  unfold scanStepCaught
  rw [h]

theorem claim_C9_theorem :
    (∀ proc st p e, proc st p = Except.error e → scanStepCaught proc st p = st)
  ∧ (∀ proc (pre : List (Nat × List Cell)) p post st0 e,
      proc (scanCaught proc pre st0) p = Except.error e →
      scanCaught proc (pre ++ p :: post) st0 = scanCaught proc (pre ++ post) st0)
  ∧ (∀ rows, getEligibleRows rows
      = (scanCaught pureRowProc ((rows.drop 7).enumFrom 8)
          { sec := "Uncategorized", rows := [] }).rows)
  ∧ (∀ proc rows, (processBatch proc rows).length = rows.length)
  ∧ (∀ proc (pre : List SheetRow) r post e pinfo,
      proc r (initPostInfo r) = Except.error (e, pinfo) →
      processBatch proc (pre ++ r :: post)
        = processBatch proc pre
          ++ [{ pinfo with status := "Failed", error_details := some e }]
          ++ processBatch proc post) := by
  refine ⟨?_, ?_, ?_, ?_, ?_⟩
  · exact scanStepCaught_error
  · intro proc pre p post st0 e h
    show List.foldl (scanStepCaught proc) st0 (pre ++ p :: post)
        = List.foldl (scanStepCaught proc) st0 (pre ++ post)
    rw [List.foldl_append, List.foldl_append, List.foldl_cons,
      scanStepCaught_error proc _ p e
        (show proc (List.foldl (scanStepCaught proc) st0 pre) p = Except.error e
          from h)]
  · intro rows
    rfl
  · intro proc rows
    unfold processBatch
    rw [List.length_map]
  · intro proc pre r post e pinfo h
    unfold processBatch
    rw [List.map_append, List.map_cons, h]
    simp

/-- C9 witness: a scan body that always raises leaves the scan state
unchanged, and a batch body that raises on its single row yields exactly
the Failed record with the captured detail. -/
theorem claim_C9_witness :
    scanCaught (fun _ _ => Except.error "boom") ([] ++ (8, ([] : List Cell)) :: [])
      { sec := "Uncategorized", rows := [] }
      = scanCaught (fun _ _ => Except.error "boom") ([] ++ [])
          { sec := "Uncategorized", rows := [] }
  ∧ processBatch (fun _ pinfo => Except.error ("boom", pinfo))
      ([] ++ ⟨9, "u", none, none, none, [], ["News"], none, "D9", "Sports"⟩ :: [])
      = [] ++ [{ initPostInfo ⟨9, "u", none, none, none, [], ["News"], none, "D9", "Sports"⟩
            with status := "Failed", error_details := some "boom" }] ++ [] := by
  constructor
  · exact claim_C9_theorem.2.1 (fun _ _ => Except.error "boom") [] (8, []) []
      { sec := "Uncategorized", rows := [] } "boom" rfl
  · exact claim_C9_theorem.2.2.2.2 (fun _ pinfo => Except.error ("boom", pinfo)) []
      ⟨9, "u", none, none, none, [], ["News"], none, "D9", "Sports"⟩ [] "boom"
      (initPostInfo ⟨9, "u", none, none, none, [], ["News"], none, "D9", "Sports"⟩) rfl

/-- C10. A failed fetch inside parse_redaction_doc returns the non-empty
string Error parsing document followed by the detail instead of raising;
the caller treats any non-empty return as a successfully extracted body
(only the empty string raises Failed to parse redaction document), so the
error text itself becomes the candidate post body. -/
theorem claim_C10_theorem :
    (∀ e ds, parseRedactionDoc (Except.error e) ds
      = some ("Error parsing document: " ++ e))
  ∧ (∀ e : String, ("Error parsing document: " ++ e).data ≠ [])
  ∧ (∀ e : String, checkRedaction ("Error parsing document: " ++ e)
      = Except.ok ("Error parsing document: " ++ e))
  ∧ checkRedaction "" = Except.error "Failed to parse redaction document" := by
  have hne : ∀ e : String, ("Error parsing document: " ++ e).data ≠ [] := by
    intro e
    rw [String.data_append]
    simp
  refine ⟨?_, hne, ?_, ?_⟩
  · intro e ds
    rfl
  · intro e
    unfold checkRedaction
    rw [if_neg (by simp [List.isEmpty_iff, hne e])]
  · rfl

end Cigar
